import Mathlib

/-!
# Verification of the `satch` repository's specification against its code

This file gives a shallow embedding, in Lean 4, of the parts of the
`satch` SAT-solver distribution that the specification's claims are about:

* the DIMACS parser's digit-accumulation loops (`src/main.c`, `parse`),
* the XOR-to-CNF Tseitin encoder (`src/main.c`, `encode_xor` and
  `direct_xor_encoding`),
* the online DRUP proof checker (`src/catch.c`),
* the feature-metadata generator's transitive closure and invalid-pair
  list (`src/features/generate.c`),
* the configuration-pair generator's CNF encoding (`src/gencombi.c`,
  `encode`).

Each definition is translated from the C source; machine integers are
modelled as `Nat`/`Int` with explicit bounds where the code checks them.
-/

namespace Satch

/-! ## DIMACS parser digit accumulation (`src/main.c`)

The parser accumulates decimal numbers digit by digit in two places that
use `int` arithmetic: the header's maximum-variable count
(`parse`, the loop after reading the first digit of `variables`) and a
literal's variable index (`parse`, the loop accumulating `idx`).  Both
loops have the shape

```
while (isdigit (ch = next ())) {
  if (!idx) parse_error ("invalid digit after '0' in number");
  if (INT_MAX / 10 < idx) parse_error ("number way too large");
  idx *= 10;
  const int digit = ch - '0';
  if (INT_MAX - digit < idx) parse_error ("number too large");
  idx += digit;
}
```

We model one iteration of each loop: given the accumulated value and the
next digit, the loop either accepts (returning the new accumulated value)
or reports a parse error.  C `int` values are modelled as `Nat` bounded by
`INT_MAX`; the code's checks prevent any intermediate value from
exceeding `INT_MAX`, so `Nat` arithmetic agrees with the C `int`
arithmetic on every path that does not error out. -/

def INT_MAX : Nat := 2147483647

/-- One iteration of the literal-index digit loop (`src/main.c`,
`parse`, the loop accumulating `idx`).  `current` is the value
accumulated so far, `digit` the next decimal digit. -/
def literalDigitStep (current digit : Nat) : Except String Nat :=
  if current = 0 then .error "invalid digit after '0' in number"
  else if INT_MAX / 10 < current then .error "number way too large"
  else if INT_MAX - digit < 10 * current then .error "number too large"
  else .ok (10 * current + digit)

/-- One iteration of the header maximum-variable digit loop
(`src/main.c`, `parse`, the loop accumulating `variables`).  Identical
arithmetic, different error messages. -/
def headerVarDigitStep (current digit : Nat) : Except String Nat :=
  if current = 0 then .error "invalid digit after '0' while parsing maximum variable"
  else if INT_MAX / 10 < current then .error "maximum variable number way too big"
  else if INT_MAX - digit < 10 * current then .error "maximum variable number too big"
  else .ok (10 * current + digit)

/-! ## XOR-to-CNF Tseitin encoding (`src/main.c`)

`direct_xor_encoding (size, l)` emits the closed-form CNF of the XOR
constraint `l[0] ^ ... ^ l[size-1] = 1` for `size <= 4`; `encode_xor`
reduces a longer XOR by repeatedly taking the three front literals of a
queue, introducing a fresh Tseitin variable, emitting the size-4 direct
encoding of `a ^ b ^ c ^ -t`, and enqueuing `t`.  We model the emitted
CNF as a list of clauses (lists of nonzero `Int` literals, as handed to
`satch_add_*`). -/

/-- `direct_xor_encoding` from `src/main.c`: the clauses emitted for an
XOR over the given literals (defined for lists of length `<= 4`; the C
function asserts `size == 4` in its final branch, to which every list of
length `>= 4` falls). -/
def direct_xor_encoding : List Int → List (List Int)
  | [] => [[]]
  | [a] => [[a]]
  | [a, b] => [[a, b], [-a, -b]]
  | [a, b, c] => [[-a, -b, c], [-a, b, -c], [a, -b, -c], [a, b, c]]
  | a :: b :: c :: d :: _ =>
      [[-a, -b, -c, -d], [-a, -b, c, d], [-a, b, -c, d], [-a, b, c, -d],
       [a, -b, -c, d], [a, -b, c, -d], [a, b, -c, -d], [a, b, c, d]]

/-- `encode_xor` from `src/main.c`: the queue loop.  Returns the final
Tseitin counter and the emitted clauses, in emission order.  The C
function enqueues all input literals, then while more than 4 remain it
dequeues three literals `a b c`, increments the Tseitin counter to get a
fresh variable `t`, emits `direct_xor_encoding (4, {a, b, c, -t})` and
enqueues `t`; finally it emits the direct encoding of the at most 4
remaining literals. -/
def encode_xor (tseitin : Int) (q : List Int) : Int × List (List Int) :=
  if h : 4 < q.length then
    match q, h with
    | a :: b :: c :: rest, _ =>
        let t := tseitin + 1
        let (t', cls) := encode_xor t (rest ++ [t])
        (t', direct_xor_encoding [a, b, c, -t] ++ cls)
  else
    (tseitin, direct_xor_encoding q)
termination_by q.length
decreasing_by
  simp_all

end Satch

/-! ## The online DRUP proof checker (`src/catch.c`)

The checker state mirrors `struct checker`: the three parallel arrays
(`marks`, `values`, `watches`) are modelled as total functions that are
zero outside the allocated `size` (freshly grown cells are
zero-initialized by `calloc`/`RESIZE`, so the total-function model
agrees with the C arrays at every index the code ever reads).  Clauses
live in an arena, an association list from a clause identifier to its
literal list; the two intrusive `next` links of `struct clause` are
modelled by each watch list being a list of clause identifiers (the C
list order is preserved exactly: traversal order, mid-list unlinking and
prepending translate to the corresponding list operations).  A fatal
`abort ()` is modelled as `Except.error` carrying the message. -/

namespace Catch

def GARBAGE_COLLECTION_INTERVAL : Nat := 10000

def MAX_SIZE_T : Nat := 2 ^ 64 - 1

/-- `LITERAL (idx) = idx << 1`. -/
def LITERAL (idx : Nat) : Nat := 2 * idx

/-- `NOT (lit) = lit ^ 1`. -/
def NOT (lit : Nat) : Nat := lit ^^^ 1

/-- A stored clause: its literal list (the C `struct clause` also
stores `size`, which always equals the length of the literal array, and
the two watch-list links, which we model inside the watch lists). -/
abbrev Arena : Type := List (Nat × List Nat)

/-- Look a clause up in the arena (`c->literals` dereference). -/
def arenaGet : Arena → Nat → List Nat
  | [], _ => []
  | e :: rest, id => if e.1 = id then e.2 else arenaGet rest id

/-- Overwrite a clause's literal array in place. -/
def arenaSet (arena : Arena) (id : Nat) (lits : List Nat) : Arena :=
  arena.map fun e => if e.1 = id then (id, lits) else e

/-- `free (c)`: drop a clause from the arena. -/
def arenaRemove (arena : Arena) (id : Nat) : Arena :=
  arena.filter fun e => e.1 != id

/-- `struct checker` from `src/catch.c`. -/
structure Checker where
  size : Nat
  inconsistent : Bool
  marks : Nat → Bool
  values : Nat → Int
  watches : Nat → List Nat
  trail : List Nat
  clause : List Nat
  new_units : Nat
  wait_to_collect : Nat
  original : Nat
  learned : Nat
  deleted : Nat
  collected : Nat
  collections : Nat
  clauses : Nat
  remained : Nat
  leak_checking : Bool
  arena : Arena
  next_id : Nat

/-- `checker_init`: every field of the `calloc`ed struct is zero except
the initial garbage-collection wait. -/
def checker_init : Checker :=
  { size := 0, inconsistent := false, marks := fun _ => false,
    values := fun _ => 0, watches := fun _ => [], trail := [], clause := [],
    new_units := 0, wait_to_collect := GARBAGE_COLLECTION_INTERVAL,
    original := 0, learned := 0, deleted := 0, collected := 0,
    collections := 0, clauses := 0, remained := 0, leak_checking := false,
    arena := [], next_id := 0 }

/-- The `while (required_size > new_size) new_size *= 2` loop of
`checker_import` (the fuel is an upper bound on the number of
doublings; since the start value is at least 1 and doubles each step,
`required` steps always suffice). -/
def upsize : Nat → Nat → Nat → Nat
  | 0, new_size, _ => new_size
  | fuel + 1, new_size, required =>
      if required > new_size then upsize fuel (2 * new_size) required else new_size

/-- The resizing part of `checker_import`: grow `size` by doubling
until it covers `required` (the arrays themselves are total functions
and need no copying; fresh cells are zero). -/
def grow (old_size required : Nat) : Nat :=
  if required > old_size then
    upsize required (if old_size = 0 then 1 else 2 * old_size) required
  else old_size

/-- `checker_import`: map external literal `elit` (nonzero, not
`INT_MIN`) to the internal literal `2*(|elit|-1) + (elit < 0)`, growing
the allocation if needed. -/
def checker_import (st : Checker) (elit : Int) : Checker × Nat :=
  let eidx := elit.natAbs
  let iidx := eidx - 1
  let ilit := LITERAL iidx + (if elit < 0 then 1 else 0)
  let required := (ilit ||| 1) + 1
  ({ st with size := grow st.size required }, ilit)

/-- `checker_add_literal`: import and push onto the pending clause. -/
def checker_add_literal (st : Checker) (elit : Int) : Checker :=
  let (st', ilit) := checker_import st elit
  { st' with clause := st'.clause ++ [ilit] }

/-- The compaction loop of `checker_trivial_clause`: walk the pending
literals; a literal assigned true, or one whose negation is marked,
makes the clause trivial (the kept prefix `begin..q` is what survives);
duplicates are dropped; fresh literals are marked and kept.  Returns
the kept literals, the updated marks, and the trivial flag. -/
def trivialLoop (values : Nat → Int) :
    (Nat → Bool) → List Nat → List Nat × (Nat → Bool) × Bool
  | marks, [] => ([], marks, false)
  | marks, lit :: rest =>
      if values lit > 0 then ([], marks, true)
      else if marks lit then trivialLoop values marks rest
      else if marks (NOT lit) then ([], marks, true)
      else
        let res := trivialLoop values (fun l => if l = lit then true else marks l) rest
        (lit :: res.1, res.2)

/-- `checker_trivial_clause` (requires an empty trail in the C code):
normalize the pending clause, marking its surviving literals. -/
def checker_trivial_clause (st : Checker) : Checker × Bool :=
  let res := trivialLoop st.values st.marks st.clause
  ({ st with clause := res.1, marks := res.2.1 }, res.2.2)

/-- `checker_clear_clause`: unmark the (normalized) pending literals
and clear the pending clause. -/
def checker_clear_clause (st : Checker) : Checker :=
  { st with
    marks := st.clause.foldl (fun m lit => fun l => if l = lit then false else m l) st.marks,
    clause := [] }

/-- `checker_assign`: set `values[¬lit] = -1`, `values[lit] = 1`, push
`lit` on the trail. -/
def checker_assign (st : Checker) (lit : Nat) : Checker :=
  { st with
    values := fun l => if l = lit then 1 else if l = NOT lit then -1 else st.values l,
    trail := st.trail ++ [lit] }

/-- The replacement-watch search of `checker_propagate`: the first
position `r ≥ 2` of the clause whose literal is not false, together
with that literal. -/
def findRepl (values : Nat → Int) : List Nat → Nat → Option (Nat × Nat)
  | [], _ => none
  | l :: rest, r => if values l ≥ 0 then some (r, l) else findRepl values rest (r + 1)

/-- The inner loop of `checker_propagate`: scan the (remaining) watch
list of `not_lit`.  Returns `(no conflict?, state, new watch list of
not_lit)`.  A clause whose other watched literal is true stays; a
clause with a non-false replacement literal at position `r ≥ 2` gets
`literals[r] := not_lit`, `literals[pos] := replacement`, is unlinked
here and prepended to the replacement's watch list; otherwise a false
other literal is a conflict (the remaining list is kept as is, as the C
code returns mid-scan), and an unassigned other literal is assigned. -/
def propScan (not_lit : Nat) : List Nat → Checker → Bool × Checker × List Nat
  | [], st => (true, st, [])
  | id :: rest, st =>
      let lits := arenaGet st.arena id
      let pos := if lits.getD 1 0 = not_lit then 1 else 0
      let other := lits.getD (1 - pos) 0
      if st.values other > 0 then
        let res := propScan not_lit rest st
        (res.1, res.2.1, id :: res.2.2)
      else
        match findRepl st.values (lits.drop 2) 2 with
        | some rl =>
            let lits' := (lits.set rl.1 not_lit).set pos rl.2
            let st' := { st with
              arena := arenaSet st.arena id lits',
              watches := fun l =>
                if l = rl.2 then id :: st.watches l else st.watches l }
            propScan not_lit rest st'
        | none =>
            if st.values other < 0 then (false, st, id :: rest)
            else
              let res := propScan not_lit rest (checker_assign st other)
              (res.1, res.2.1, id :: res.2.2)

/-- The outer loop of `checker_propagate`: process trail entries in
push (BFS) order.  One fuel unit per outer iteration; `checker_propagate`
supplies enough fuel (see `propFuel`). -/
def propLoop : Nat → Checker → Nat → Bool × Checker
  | 0, st, _ => (true, st)
  | fuel + 1, st, propagate =>
      if propagate < st.trail.length then
        let lit := st.trail.getD propagate 0
        let not_lit := NOT lit
        let res := propScan not_lit (st.watches not_lit) st
        let st' := { res.2.1 with watches := fun l =>
          if l = not_lit then res.2.2 else (res.2.1).watches l }
        if res.1 then propLoop fuel st' (propagate + 1) else (false, st')
      else (true, st)

/-- Fuel bound for `checker_propagate`: every outer iteration consumes
one trail entry; entries beyond the initial trail stem from
`checker_assign` calls, each of which turns a zero-valued literal
occurring in some stored clause nonzero, so the total clause-literal
count bounds them. -/
def propFuel (st : Checker) : Nat :=
  st.trail.length + (st.arena.map fun e => e.2.length).sum + 1

/-- `checker_propagate`: returns `false` iff a conflict was found. -/
def checker_propagate (st : Checker) : Bool × Checker :=
  propLoop (propFuel st) st 0

/-- `checker_backtrack`: pop every trail literal, unassigning it. -/
def checker_backtrack (st : Checker) : Checker :=
  { st with
    values := st.trail.reverse.foldl
      (fun v lit => fun l => if l = lit then 0 else if l = NOT lit then 0 else v l)
      st.values,
    trail := [] }

/-- The partition loop of `checker_add_clause`: walk the pending
literals with read index `p` and write index `q`; falsified literals
are skipped (left in place), non-false ones are swapped forward to
position `q`; the first non-false literal is remembered as the
potential `unit`; the loop breaks as soon as two non-false literals
have been seen.  One fuel unit per iteration (`p` increments each call,
so `arr.length` fuel always suffices).  Returns the reordered literal
array, the non-false count (capped at 2 by the break), and `unit`. -/
def addScan (values : Nat → Int) :
    Nat → List Nat → Nat → Nat → Nat → Nat → List Nat × Nat × Nat
  | 0, arr, _, _, non_false, unit => (arr, non_false, unit)
  | fuel + 1, arr, p, q, non_false, unit =>
      if p < arr.length then
        let lit := arr.getD p 0
        if values lit < 0 then addScan values fuel arr (p + 1) q non_false unit
        else
          let arr' := if p ≠ q then (arr.set p (arr.getD q 0)).set q lit else arr
          let unit' := if non_false = 0 then lit else unit
          if non_false + 1 > 1 then (arr', non_false + 1, unit')
          else addScan values fuel arr' (p + 1) (q + 1) (non_false + 1) unit'
      else (arr, non_false, unit)

/-- `checker_schedule_next_garbage_collection`: the next wait is
`collections * GARBAGE_COLLECTION_INTERVAL`, saturating at the maximum
`size_t`; `new_units` is reset. -/
def checker_schedule_next_garbage_collection (st : Checker) : Checker :=
  let wait :=
    if MAX_SIZE_T / GARBAGE_COLLECTION_INTERVAL < st.collections then MAX_SIZE_T
    else st.collections * GARBAGE_COLLECTION_INTERVAL
  { st with new_units := 0, wait_to_collect := wait }

/-- `checker_disconnect_second_watch`: drop from `lit`'s watch list
every clause whose second literal is `lit` (those reached through
`next[1]`). -/
def checker_disconnect_second_watch (arena : Arena) (lit : Nat) (l : List Nat) :
    List Nat :=
  l.filter fun id => (arenaGet arena id).getD 1 0 != lit

/-- `checker_disconnect_all_second_watches`. -/
def checker_disconnect_all_second_watches (st : Checker) : Checker :=
  let w' := (List.range st.size).foldl
    (fun w lit => fun l =>
      if l = lit then checker_disconnect_second_watch st.arena lit (w lit) else w l)
    st.watches
  { st with watches := w' }

/-- The walk of `checker_flush_satisfied_clauses` over one (first-watch
only) list: clauses containing a true literal are unlinked and freed;
returns the surviving list, the arena, and the number collected. -/
def flushScan (values : Nat → Int) :
    List Nat → Arena → List Nat × Arena × Nat
  | [], arena => ([], arena, 0)
  | id :: rest, arena =>
      if (arenaGet arena id).any (fun other => values other > 0) then
        let res := flushScan values rest (arenaRemove arena id)
        (res.1, res.2.1, res.2.2 + 1)
      else
        let res := flushScan values rest arena
        (id :: res.1, res.2)

/-- `checker_flush_all_satisfied_clauses`: apply the flush to every
literal's list, accumulating `collected` and decrementing the alive
clause count. -/
def checker_flush_all_satisfied_clauses (st : Checker) : Checker :=
  (List.range st.size).foldl
    (fun st lit =>
      let res := flushScan st.values (st.watches lit) st.arena
      { st with
        watches := fun l => if l = lit then res.1 else st.watches l,
        arena := res.2.1,
        clauses := st.clauses - res.2.2,
        collected := st.collected + res.2.2 })
    st

/-- The walk of `checker_reconnect_second_watch` over one list: every
clause whose first literal is `lit` is prepended to its second
literal's watch list; clauses reached through their second watch are
skipped. -/
def reconnectScan (arena : Arena) (lit : Nat) :
    List Nat → (Nat → List Nat) → Nat → List Nat
  | [], w => w
  | id :: rest, w =>
      let lits := arenaGet arena id
      if lits.getD 0 0 = lit then
        reconnectScan arena lit rest
          (fun l => if l = lits.getD 1 0 then id :: w l else w l)
      else reconnectScan arena lit rest w

/-- `checker_reconnect_all_second_watches`. -/
def checker_reconnect_all_second_watches (st : Checker) : Checker :=
  let w' := (List.range st.size).foldl
    (fun w lit => reconnectScan st.arena lit (w lit) w)
    st.watches
  { st with watches := w' }

/-- `checker_garbage_collection`: count the collection, disconnect all
second watches, flush root-level satisfied clauses, reconnect, and
schedule the next collection. -/
def checker_garbage_collection (st : Checker) : Checker :=
  checker_schedule_next_garbage_collection
    (checker_reconnect_all_second_watches
      (checker_flush_all_satisfied_clauses
        (checker_disconnect_all_second_watches
          { st with collections := st.collections + 1 })))

/-- The body of `checker_add_clause` before the garbage-collection
check: partition the pending literals, then either mark the checker
inconsistent (no non-false literal), assign and propagate a unit
(clearing the trail on success, marking inconsistent on conflict), or
allocate the clause and watch its first two literals; finally count
down the garbage-collection wait. -/
def checker_add_clause_core (st : Checker) : Checker :=
  let res := addScan st.values st.clause.length st.clause 0 0 0 0
  let arr := res.1
  let non_false := res.2.1
  let unit := res.2.2
  let st := { st with clause := arr }
  let st :=
    if non_false = 0 then { st with inconsistent := true }
    else if non_false = 1 then
      let st := checker_assign st unit
      let st := { st with new_units := st.new_units + 1 }
      let pres := checker_propagate st
      if pres.1 then { pres.2 with trail := [] }
      else { pres.2 with inconsistent := true }
    else
      let lit := arr.getD 0 0
      let other := arr.getD 1 0
      let id := st.next_id
      let st := { st with
        clauses := st.clauses + 1,
        arena := st.arena ++ [(id, arr)],
        next_id := id + 1 }
      let w1 := fun l => if l = lit then id :: st.watches l else st.watches l
      { st with watches := fun l => if l = other then id :: w1 l else w1 l }
  { st with wait_to_collect :=
      if st.wait_to_collect ≠ 0 then st.wait_to_collect - 1 else st.wait_to_collect }

/-- `checker_add_clause`: the core, then an opportunistic garbage
collection when the checker is consistent, new units have arrived and
the scheduled wait has elapsed. -/
def checker_add_clause (st : Checker) : Checker :=
  let core := checker_add_clause_core st
  if core.inconsistent = false ∧ core.new_units ≠ 0 ∧ core.wait_to_collect = 0 then
    checker_garbage_collection core
  else core

/-- The per-watch-list search of `checker_internal_delete_clause`: the
first clause whose size matches and whose literals are all marked. -/
def deleteScan (marks : Nat → Bool) (size : Nat) (arena : Arena) :
    List Nat → Option Nat
  | [] => none
  | id :: rest =>
      let lits := arenaGet arena id
      if lits.length ≠ size then deleteScan marks size arena rest
      else if lits.all marks then some id
      else deleteScan marks size arena rest

/-- The outer search of `checker_internal_delete_clause` over the
pending clause's literals: the first literal whose watch list holds a
match, with the matching clause. -/
def findDelete (marks : Nat → Bool) (size : Nat) (arena : Arena)
    (watches : Nat → List Nat) : List Nat → Option (Nat × Nat)
  | [] => none
  | lit :: rest =>
      match deleteScan marks size arena (watches lit) with
      | some id => some (lit, id)
      | none => findDelete marks size arena watches rest

/-- `checker_internal_delete_clause`: find the first stored clause
matching the marked pending literals in the watch lists of the pending
literals; unlink it from the found literal's list, unlink it from the
other watched literal's list (the C code scans that list linearly for
the back-pointer), and free it; abort if no clause matches. -/
def checker_internal_delete_clause (st : Checker) : Except String Checker :=
  let size := st.clause.length
  match findDelete st.marks size st.arena st.watches st.clause with
  | none => .error "clause requested to delete not found"
  | some li =>
      let lit := li.1
      let id := li.2
      let lits := arenaGet st.arena id
      let cpos := if lits.getD 1 0 = lit then 1 else 0
      let other := lits.getD (1 - cpos) 0
      let w1 := fun l => if l = lit then (st.watches l).erase id else st.watches l
      let w2 := fun l => if l = other then (w1 l).erase id else w1 l
      .ok { st with
        watches := w2,
        clauses := st.clauses - 1,
        arena := arenaRemove st.arena id }

/-- The loop of `check_clause_implied`: process the pending literals in
order; a true literal means the clause is subsumed (`failed`); a false
literal is skipped; an unassigned literal's negation is assigned and
propagated, a conflict meaning the clause is implied (`failed`).
Returns the flag and the state reached when the loop stopped. -/
def impliedLoop : List Nat → Checker → Bool × Checker
  | [], st => (false, st)
  | lit :: rest, st =>
      if st.values lit > 0 then (true, st)
      else if st.values lit = 0 then
        let pres := checker_propagate (checker_assign st (NOT lit))
        if pres.1 then impliedLoop rest pres.2 else (true, pres.2)
      else impliedLoop rest st

/-- `check_clause_implied`: abort with "learned clause not implied"
unless the loop failed (i.e. the clause is implied); backtrack
afterwards. -/
def check_clause_implied (st : Checker) : Except String Checker :=
  let res := impliedLoop st.clause st
  if res.1 then .ok (checker_backtrack res.2)
  else .error "learned clause not implied"

/-- The shared ingestion tail of `checker_add_original_clause` and
`checker_add_learned_clause`: normalize, add unless trivial, clear. -/
def checker_ingest (st : Checker) : Checker :=
  let tres := checker_trivial_clause st
  checker_clear_clause (if tres.2 then tres.1 else checker_add_clause tres.1)

/-- `checker_add_original_clause` (an inconsistent checker only clears
the pending clause). -/
def checker_add_original_clause (st : Checker) : Checker :=
  if st.inconsistent then { st with clause := [] }
  else checker_ingest { st with original := st.original + 1 }

/-- `checker_add_learned_clause`: check DRUP implication, then ingest
as in the original path. -/
def checker_add_learned_clause (st : Checker) : Except String Checker :=
  if st.inconsistent then .ok { st with clause := [] }
  else
    match check_clause_implied { st with learned := st.learned + 1 } with
    | .error e => .error e
    | .ok st' => .ok (checker_ingest st')

/-- `checker_delete_clause`. -/
def checker_delete_clause (st : Checker) : Except String Checker :=
  if st.inconsistent then .ok { st with clause := [] }
  else
    let tres := checker_trivial_clause { st with deleted := st.deleted + 1 }
    if tres.2 then .ok (checker_clear_clause tres.1)
    else
      match checker_internal_delete_clause tres.1 with
      | .error e => .error e
      | .ok st' => .ok (checker_clear_clause st')

/-- Checkers reachable from `checker_init` through the public API
(aborting calls terminate the process and so reach no state). -/
inductive Reachable : Checker → Prop
  | init : Reachable checker_init
  | add_literal (st : Checker) (elit : Int) :
      Reachable st → elit ≠ 0 → elit ≠ -2147483648 →
      Reachable (checker_add_literal st elit)
  | add_original (st : Checker) :
      Reachable st → Reachable (checker_add_original_clause st)
  | add_learned (st st' : Checker) :
      Reachable st → checker_add_learned_clause st = .ok st' → Reachable st'
  | delete (st st' : Checker) :
      Reachable st → checker_delete_clause st = .ok st' → Reachable st'

/-- Spec-side predicate, following the specification's words for the
learned-clause check: process the pending literals in order, skipping
root-level-false literals, succeeding as soon as a literal is already
root-level true, and otherwise assigning the literal's negation and
unit-propagating, succeeding if a propagation produces a conflict;
if no literal succeeds the check fails. -/
def drupCheckSucceeds : List Nat → Checker → Bool
  | [], _ => false
  | lit :: rest, st =>
      if st.values lit > 0 then true
      else if st.values lit < 0 then drupCheckSucceeds rest st
      else
        let pres := checker_propagate (checker_assign st (NOT lit))
        if pres.1 then drupCheckSucceeds rest pres.2 else true

/-! Concrete API scenarios used by the claims (external literals). -/

/-- Push a list of external literals onto the pending clause. -/
def pushLits (st : Checker) (lits : List Int) : Checker :=
  lits.foldl checker_add_literal st

/-- C4 scenario: after `add_original [1]`. -/
def c4_state1 : Checker :=
  checker_add_original_clause (pushLits checker_init [1])

/-- C4 scenario: pending clause `[-1, 2]` on top of `c4_state1`. -/
def c4_pending : Checker := pushLits c4_state1 [-1, 2]

/-- C4 scenario: after the second `add_original`. -/
def c4_state2 : Checker := checker_add_original_clause c4_pending

/-- C2 scenario: after `add_original [1, 2, 3]`. -/
def c2_base : Checker :=
  checker_add_original_clause (pushLits checker_init [1, 2, 3])

/-- C2 scenario: pending `[3, 1, 2]` (a permutation). -/
def c2_perm : Checker := pushLits c2_base [3, 1, 2]

/-- C2 scenario: pending `[1, 2]` (a strict subset). -/
def c2_sub : Checker := pushLits c2_base [1, 2]

/-- C3 counterexample: after `add_original [-1, 2]` and
`add_original [-1, -2]`, with pending `[1]`. -/
def c3_pre : Checker :=
  pushLits
    (checker_add_original_clause
      (pushLits (checker_add_original_clause (pushLits checker_init [-1, 2]))
        [-1, -2]))
    [1]

/-- C3 counterexample: the state returned by the third
`add_original`; the unit `1` propagates to a conflict. -/
def c3_state : Checker := checker_add_original_clause c3_pre

/-- C5 counterexample: one `add_original [1, 2]` call. -/
def c5_addBin (st : Checker) : Checker :=
  checker_add_original_clause (pushLits st [1, 2])

/-- C5 counterexample: after `add_original [3]` (commits a unit, so
`new_units = 1`; the garbage-collection wait is at 9999). -/
def c5_start : Checker :=
  checker_add_original_clause (pushLits checker_init [3])

/-- C5 counterexample: `c5_start` followed by `k` binary adds. -/
def c5_state (k : Nat) : Checker := Nat.iterate c5_addBin k c5_start

/-- The fields of interest tracked along the C5 counterexample run:
consistent, empty pending clause, internal literals 0 and 2 unassigned,
marks clear on the first two variables, one pending new unit, the
given garbage-collection wait, and no collection so far. -/
def c5_P (w : Nat) (st : Checker) : Prop :=
  st.inconsistent = false ∧ st.clause = [] ∧
  st.values 0 = 0 ∧ st.values 2 = 0 ∧
  st.marks 0 = false ∧ st.marks 1 = false ∧
  st.marks 2 = false ∧ st.marks 3 = false ∧
  st.new_units = 1 ∧ st.wait_to_collect = w ∧ st.collections = 0


end Catch

/-! ### C7: parser digit-overflow check -/

namespace Generate

/-- `init_transitively_implies` from `src/features/generate.c`: set the
matrix entry for every pair read from `implied.csv`. -/
def initTransitivelyImplied (implied : List (Nat × Nat)) : Nat → Nat → Bool :=
  implied.foldl (fun T p => fun i j => if i = p.1 ∧ j = p.2 then true else T i j)
    (fun _ _ => false)

/-- The triples `(i, j, k)` visited by one pass of `transitive_hull`,
in loop order. -/
def tripleList (n : Nat) : List (Nat × Nat × Nat) :=
  (List.range n).flatMap fun i =>
    (List.range n).flatMap fun j =>
      (List.range n).map fun k => (i, j, k)

/-- The body of the triple loop of `transitive_hull`: if `i → j` and
`j → k` but not yet `i → k`, add `i → k` and record the change. -/
def hullStep (Tch : (Nat → Nat → Bool) × Bool) (t : Nat × Nat × Nat) :
    (Nat → Nat → Bool) × Bool :=
  if Tch.1 t.1 t.2.1 && Tch.1 t.2.1 t.2.2 && !(Tch.1 t.1 t.2.2) then
    (fun i j => if i = t.1 ∧ j = t.2.2 then true else Tch.1 i j, true)
  else Tch

/-- One `do`-iteration of `transitive_hull`: the full triple loop,
returning the updated matrix and the `changed` flag. -/
def hullPass (n : Nat) (T : Nat → Nat → Bool) : (Nat → Nat → Bool) × Bool :=
  (tripleList n).foldl hullStep (T, false)

/-- The `do { ... } while (changed)` loop of `transitive_hull` (the
fuel bounds the number of passes; since each changed pass strictly
grows the `n × n` matrix, `n * n + 1` passes always reach the
fixed point — see `hullLoop_fix`). -/
def hullLoop (n : Nat) : Nat → (Nat → Nat → Bool) → Nat → Nat → Bool
  | 0, T => T
  | fuel + 1, T =>
      if (hullPass n T).2 then hullLoop n fuel (hullPass n T).1 else (hullPass n T).1

/-- `transitive_hull` from `src/features/generate.c`. -/
def transitive_hull (n : Nat) (implied : List (Nat × Nat)) : Nat → Nat → Bool :=
  hullLoop n (n * n + 1) (initTransitivelyImplied implied)

/-- `push_invalid_pair`: canonicalize the pair by name order before
storing it (the C code compares with `strcmp`). -/
def push_invalid_pair (names : Nat → String) (i j : Nat) : Nat × Nat :=
  if names j < names i then (j, i) else (i, j)

/-- `cmp_invalid` as a total preorder: name of the first component,
then name of the second. -/
def cmp_invalid_le (names : Nat → String) (p q : Nat × Nat) : Bool :=
  decide (names p.1 < names q.1 ∨
    (names p.1 = names q.1 ∧ names p.2 ≤ names q.2))

/-- `sort_invalid_feature_pairs` from `src/features/generate.c`: push a
canonicalized pair for every entry of the transitive hull of `implied`
(row-major) and for every clashing pair, then sort (the C code uses
`qsort` with `cmp_invalid`; any comparison sort yields the same sorted
list up to the order of name-equal pairs). -/
def sort_invalid_feature_pairs (n : Nat) (names : Nat → String)
    (implied clashing : List (Nat × Nat)) : List (Nat × Nat) :=
  (((List.range n).flatMap fun i =>
      (((List.range n).filter fun j => transitive_hull n implied i j).map fun j =>
        push_invalid_pair names i j))
    ++ clashing.map fun p => push_invalid_pair names p.1 p.2).mergeSort
    (cmp_invalid_le names)

/-- The relation read from `implied.csv`. -/
def impliedRel (implied : List (Nat × Nat)) (i j : Nat) : Prop :=
  (i, j) ∈ implied

/-- Soundness invariant: every set matrix entry is a transitive
consequence of the input relation. -/
def Sound (R : Nat → Nat → Prop) (T : Nat → Nat → Bool) : Prop :=
  ∀ i j, T i j = true → Relation.TransGen R i j

/-- The number of set entries of the reachability matrix restricted to
indices below `n`. -/
def entryCount (n : Nat) (T : Nat → Nat → Bool) : Nat :=
  ((Finset.range n ×ˢ Finset.range n).filter fun p => T p.1 p.2 = true).card

/-- Concrete feature names for the C8 witness instance. -/
def c8names : Nat → String :=
  fun i => if i = 0 then "beta" else if i = 1 then "alpha" else "gamma"

end Generate

namespace Gencombi

/-- The valid option pairs `(p, q)` with `p < q`, in the iteration
order of `encode` in `src/gencombi.c` (outer `p`, inner `q`). -/
def validPairs (n : Nat) (valid : Nat → Nat → Bool) : List (Nat × Nat) :=
  (List.range n).flatMap fun p =>
    (((List.range n).filter fun q => p < q && valid p q).map fun q => (p, q))

/-- `option[i][p] = ++nvars`: the option variables are allocated first,
row by row, so `option[i][p]` is one past its position in that
iteration order. -/
def optionVar (n i p : Nat) : Nat := i * n + p + 1

/-- The triples `(i, p, q)` for which a pair variable is allocated, in
allocation order. -/
def pairTriples (k n : Nat) (valid : Nat → Nat → Bool) : List (Nat × Nat × Nat) :=
  (List.range k).flatMap fun i =>
    (validPairs n valid).map fun pq => (i, pq.1, pq.2)

/-- `pair[i][p][q] = ++nvars`: the pair variables are allocated after
the `k * noptions` option variables, in the order of `pairTriples`, so
the variable is the base plus one past the triple\x27s position. -/
def pairVar (k n : Nat) (valid : Nat → Nat → Bool) (i p q : Nat) : Nat :=
  k * n + (pairTriples k n valid).indexOf (i, p, q) + 1

/-- `sorted[i][p] = ++nvars` for `1 <= i < k`, `1 <= p < noptions`,
allocated after the option and pair variables (only without
`--unsorted`). -/
def sortedVar (k n : Nat) (valid : Nat → Nat → Bool) (i p : Nat) : Nat :=
  k * n + (pairTriples k n valid).length + (i - 1) * (n - 1) + (p - 1) + 1

/-- The symmetry-breaking (sorting) clauses of `encode`, emitted for
`1 <= i < k` unless `--unsorted` is given. -/
def sortingClauses (k n : Nat) (valid : Nat → Nat → Bool) (unsorted : Bool) :
    List (List Int) :=
  if unsorted then [] else
  (List.range (k - 1)).flatMap fun i0 =>
    [[(optionVar n i0 0 : Int), -(optionVar n (i0 + 1) 0 : Int)],
     [(optionVar n i0 0 : Int), (sortedVar k n valid (i0 + 1) 1 : Int)],
     [-(optionVar n (i0 + 1) 0 : Int), (sortedVar k n valid (i0 + 1) 1 : Int)]]
    ++ ((List.range (n - 2)).flatMap fun p0 =>
      [[-(sortedVar k n valid (i0 + 1) (p0 + 1) : Int),
        (optionVar n i0 (p0 + 1) : Int), -(optionVar n (i0 + 1) (p0 + 1) : Int)],
       [-(sortedVar k n valid (i0 + 1) (p0 + 1) : Int),
        (optionVar n i0 (p0 + 1) : Int), (sortedVar k n valid (i0 + 1) (p0 + 2) : Int)],
       [-(sortedVar k n valid (i0 + 1) (p0 + 1) : Int),
        -(optionVar n (i0 + 1) (p0 + 1) : Int), (sortedVar k n valid (i0 + 1) (p0 + 2) : Int)]])
    ++ [[-(sortedVar k n valid (i0 + 1) (n - 1) : Int), (optionVar n i0 (n - 1) : Int)],
        [-(sortedVar k n valid (i0 + 1) (n - 1) : Int), -(optionVar n (i0 + 1) (n - 1) : Int)]]

/-- The pair-definition and clash clauses of `encode`: for every
configuration `i` and every `p < q`, either the three clauses defining
`pair[i][p][q] = option[i][p] & option[i][q]` (valid pair) or the
binary clash clause (invalid pair). -/
def pairsClauses (k n : Nat) (valid : Nat → Nat → Bool) : List (List Int) :=
  (List.range k).flatMap fun i =>
    (List.range n).flatMap fun p =>
      ((List.range n).filter fun q => p < q).flatMap fun q =>
        if valid p q then
          [[-(pairVar k n valid i p q : Int), (optionVar n i p : Int)],
           [-(pairVar k n valid i p q : Int), (optionVar n i q : Int)],
           [-(optionVar n i p : Int), -(optionVar n i q : Int),
            (pairVar k n valid i p q : Int)]]
        else
          [[-(optionVar n i p : Int), -(optionVar n i q : Int)]]

/-- The required-option clauses of `encode`: for every configuration
`i` and every needed option `p`, the clause with `-option[i][p]` and
the options `p` needs. -/
def requiredClauses (k n : Nat) (needed : Nat → Bool) (needs : Nat → Nat → Bool) :
    List (List Int) :=
  (List.range k).flatMap fun i =>
    (((List.range n).filter fun p => needed p).map fun p =>
      -(optionVar n i p : Int) ::
        (((List.range n).filter fun q => decide (p ≠ q) && needs p q).map fun q =>
          (optionVar n i q : Int)))

/-- The coverage clauses of `encode`: every valid pair occurs in some
configuration. -/
def coverageClauses (k n : Nat) (valid : Nat → Nat → Bool) : List (List Int) :=
  (validPairs n valid).map fun pq =>
    (List.range k).map fun i => (pairVar k n valid i pq.1 pq.2 : Int)

/-- The absence clauses of `encode`: every valid pair is absent from
some configuration; omitted entirely in weak mode. -/
def absenceClauses (k n : Nat) (valid : Nat → Nat → Bool) (weak : Bool) :
    List (List Int) :=
  if weak then [] else
  (validPairs n valid).map fun pq =>
    (List.range k).map fun i => -(pairVar k n valid i pq.1 pq.2 : Int)

/-- `encode` from `src/gencombi.c`: the full CNF for `k`
configurations, in emission order. -/
def encode (k n : Nat) (valid : Nat → Nat → Bool) (needed : Nat → Bool)
    (needs : Nat → Nat → Bool) (unsorted weak : Bool) : List (List Int) :=
  sortingClauses k n valid unsorted ++ pairsClauses k n valid ++
    requiredClauses k n needed needs ++ coverageClauses k n valid ++
    absenceClauses k n valid weak

/-- Concrete validity predicate for the C9 witness instance: every
pair of distinct options is valid except `(0, 2)`. -/
def c9valid : Nat → Nat → Bool := fun p q => !(p == 0 && q == 2)

end Gencombi

/-- **C7, counterexample.**  The claim states the parser accepts a digit
*iff* `current <= (INT_MAX - digit)/10`: at `current = 0`, `digit = 1`
(input such as `01`) the inequality holds, yet the code reports the
parse error `invalid digit after '0' in number` instead of accepting. -/
theorem C7_digit_acceptance_cex :
    0 ≤ (Satch.INT_MAX - 1) / 10 ∧
      Satch.literalDigitStep 0 1 = .error "invalid digit after '0' in number" ∧
      Satch.headerVarDigitStep 0 1 =
        .error "invalid digit after '0' while parsing maximum variable" :=
  ⟨Nat.zero_le _, rfl, rfl⟩

/-- **C7 (amended).**  While the DIMACS parser accumulates a decimal
number digit by digit (the header's maximum variable or a literal's
variable index), for every already-accumulated value `current` and next
digit it accepts the digit iff `current ≠ 0` (a digit after a leading
`0` is a separate parse error) and `current ≤ (INT_MAX - digit)/10` in
integer arithmetic — equivalently `10*current + digit ≤ INT_MAX`, so
the accumulated value never overflows a 32-bit int — and otherwise
reports a parse error. -/
theorem C7_digit_acceptance (current digit : Nat) (hd : digit ≤ 9) :
    (Satch.literalDigitStep current digit = .ok (10 * current + digit) ↔
        current ≠ 0 ∧ current ≤ (Satch.INT_MAX - digit) / 10) ∧
    (Satch.headerVarDigitStep current digit = .ok (10 * current + digit) ↔
        current ≠ 0 ∧ current ≤ (Satch.INT_MAX - digit) / 10) ∧
    (current ≤ (Satch.INT_MAX - digit) / 10 ↔ 10 * current + digit ≤ Satch.INT_MAX) ∧
    ((Satch.literalDigitStep current digit).isOk = false →
      ∃ e, Satch.literalDigitStep current digit = .error e) := by
  have hdiv : current ≤ (Satch.INT_MAX - digit) / 10 ↔
      10 * current + digit ≤ Satch.INT_MAX := by
    rw [Nat.le_div_iff_mul_le (by norm_num)]
    unfold Satch.INT_MAX
    omega
  have hM : Satch.INT_MAX / 10 = 214748364 := by decide
  refine ⟨?_, ?_, hdiv, ?_⟩
  · unfold Satch.literalDigitStep
    rw [hdiv]
    split_ifs with h1 h2 h3
    · simp [h1]
    · simp only [reduceCtorEq, false_iff, not_and]
      intro _
      unfold Satch.INT_MAX at h2 ⊢
      rw [Satch.INT_MAX] at hM
      omega
    · simp only [reduceCtorEq, false_iff, not_and]
      intro _
      unfold Satch.INT_MAX at h3 ⊢
      omega
    · simp only [Except.ok.injEq, true_iff]
      refine ⟨h1, ?_⟩
      unfold Satch.INT_MAX at h3 ⊢
      omega
  · unfold Satch.headerVarDigitStep
    rw [hdiv]
    split_ifs with h1 h2 h3
    · simp [h1]
    · simp only [reduceCtorEq, false_iff, not_and]
      intro _
      unfold Satch.INT_MAX at h2 ⊢
      rw [Satch.INT_MAX] at hM
      omega
    · simp only [reduceCtorEq, false_iff, not_and]
      intro _
      unfold Satch.INT_MAX at h3 ⊢
      omega
    · simp only [Except.ok.injEq, true_iff]
      refine ⟨h1, ?_⟩
      unfold Satch.INT_MAX at h3 ⊢
      omega
  · unfold Satch.literalDigitStep
    split_ifs
    · exact fun _ => ⟨_, rfl⟩
    · exact fun _ => ⟨_, rfl⟩
    · exact fun _ => ⟨_, rfl⟩
    · simp [Except.isOk, Except.toBool]

/-! ### C6: XOR Tseitin encoding -/

namespace Satch

/-- Unfolding `encode_xor` when at most 4 literals remain. -/
theorem encode_xor_base (t : Int) (q : List Int) (hq : q.length ≤ 4) :
    encode_xor t q = (t, direct_xor_encoding q) := by
  rw [encode_xor]
  have h4 : ¬ 4 < q.length := by omega
  simp only [dif_neg h4]

/-- Unfolding `encode_xor` when more than 4 literals remain: one
Tseitin step. -/
theorem encode_xor_step (t a b c : Int) (rest : List Int)
    (h : 2 ≤ rest.length) :
    encode_xor t (a :: b :: c :: rest) =
      ((encode_xor (t + 1) (rest ++ [t + 1])).1,
        direct_xor_encoding [a, b, c, -(t + 1)] ++
          (encode_xor (t + 1) (rest ++ [t + 1])).2) := by
  rw [encode_xor]
  have h4 : 4 < (a :: b :: c :: rest).length := by
    simp only [List.length_cons]
    omega
  simp only [dif_pos h4]

end Satch

/-- **C6, counterexample.**  The claim states each Tseitin step emits
the *4-clause* direct encoding of `t = a ⊕ b ⊕ c`.  The code calls
`direct_xor_encoding (4, {a, b, c, -t})`, which emits **8** quaternary
clauses.  On the 5-literal XOR `1 ⊕ 2 ⊕ 3 ⊕ 4 ⊕ 5` with Tseitin counter
5, one step (fresh variable 6) plus the direct encoding of the remaining
`[4, 5, 6]` yields `8 + 4 = 12` clauses, not the `4 + 4 = 8` the claim
predicts, and the step's clause block has 8 clauses, not 4. -/
theorem C6_xor_step_cex :
    (Satch.encode_xor 5 [1, 2, 3, 4, 5]).2.length = 12 ∧
      (Satch.encode_xor 5 [1, 2, 3, 4, 5]).2.take 8 =
        Satch.direct_xor_encoding [1, 2, 3, -6] ∧
      (Satch.direct_xor_encoding [1, 2, 3, -6]).length = 8 ∧
      (Satch.direct_xor_encoding [1, 2, 3, -6]).length ≠ 4 := by
  have hs := Satch.encode_xor_step 5 1 2 3 [4, 5] (by decide)
  have hb := Satch.encode_xor_base 6 ([4, 5] ++ [6]) (by decide)
  rw [show (5 : Int) + 1 = 6 by decide] at hs
  rw [hs, hb]
  refine ⟨rfl, by decide, rfl, by decide⟩

/-- **C6 (amended).**  For every XOR clause of `k` literals with
`k > 4`, the encoder repeatedly dequeues the three front literals
`a, b, c`, allocates a fresh Tseitin variable `t` (the incremented
Tseitin counter, one past the previously highest variable), emits the
**8-clause** size-4 direct encoding of the constraint
`a ⊕ b ⊕ c ⊕ ¬t` (equivalently `t = a ⊕ b ⊕ c`), and enqueues `t` for
the next layer; as soon as at most 4 literals remain, their closed-form
direct CNF encoding (distinct forms for sizes 0 through 4) is
emitted. -/
theorem C6_xor_encoding (t a b c : Int) (rest : List Int)
    (h : 2 ≤ rest.length) :
    (Satch.encode_xor t (a :: b :: c :: rest) =
        ((Satch.encode_xor (t + 1) (rest ++ [t + 1])).1,
          Satch.direct_xor_encoding [a, b, c, -(t + 1)] ++
            (Satch.encode_xor (t + 1) (rest ++ [t + 1])).2) ∧
      (Satch.direct_xor_encoding [a, b, c, -(t + 1)]).length = 8) ∧
    (∀ q : List Int, q.length ≤ 4 → Satch.encode_xor t q = (t, Satch.direct_xor_encoding q)) ∧
    (Satch.direct_xor_encoding [] = [[]] ∧
      Satch.direct_xor_encoding [a] = [[a]] ∧
      Satch.direct_xor_encoding [a, b] = [[a, b], [-a, -b]] ∧
      Satch.direct_xor_encoding [a, b, c] =
        [[-a, -b, c], [-a, b, -c], [a, -b, -c], [a, b, c]]) :=
  ⟨⟨Satch.encode_xor_step t a b c rest h, rfl⟩,
    fun q hq => Satch.encode_xor_base t q hq, rfl, rfl, rfl, rfl⟩

/-- Witness for `C6_xor_encoding` with `rest = [4, 5]`. -/
theorem C6_xor_encoding_witness :
    2 ≤ ([(4 : Int), 5] : List Int).length ∧
    ((Satch.encode_xor 5 [1, 2, 3, 4, 5] =
        ((Satch.encode_xor (5 + 1) ([4, 5] ++ [5 + 1])).1,
          Satch.direct_xor_encoding [1, 2, 3, -(5 + 1)] ++
            (Satch.encode_xor (5 + 1) ([4, 5] ++ [5 + 1])).2) ∧
      (Satch.direct_xor_encoding [1, 2, 3, -(5 + 1)]).length = 8) ∧
    (∀ q : List Int, q.length ≤ 4 →
        Satch.encode_xor 5 q = (5, Satch.direct_xor_encoding q)) ∧
    (Satch.direct_xor_encoding [] = [[]] ∧
      Satch.direct_xor_encoding [(1 : Int)] = [[1]] ∧
      Satch.direct_xor_encoding [1, 2] = [[1, 2], [-1, -2]] ∧
      Satch.direct_xor_encoding [1, 2, 3] =
        [[-1, -2, 3], [-1, 2, -3], [1, -2, -3], [1, 2, 3]])) :=
  ⟨by decide, C6_xor_encoding 5 1 2 3 [4, 5] (by decide)⟩

/-- Witness for `C7_digit_acceptance` at `current = 3`, `digit = 7`. -/
theorem C7_digit_acceptance_witness :
    7 ≤ 9 ∧
    ((Satch.literalDigitStep 3 7 = .ok (10 * 3 + 7) ↔
        3 ≠ 0 ∧ 3 ≤ (Satch.INT_MAX - 7) / 10) ∧
     (Satch.headerVarDigitStep 3 7 = .ok (10 * 3 + 7) ↔
        3 ≠ 0 ∧ 3 ≤ (Satch.INT_MAX - 7) / 10) ∧
     (3 ≤ (Satch.INT_MAX - 7) / 10 ↔ 10 * 3 + 7 ≤ Satch.INT_MAX) ∧
     ((Satch.literalDigitStep 3 7).isOk = false →
        ∃ e, Satch.literalDigitStep 3 7 = .error e)) :=
  ⟨by decide, C7_digit_acceptance 3 7 (by decide)⟩

/-! ### C10: frame property of an inconsistent checker -/

/-- **C10.**  Once a checker is inconsistent, every subsequent
`add_original`, `add_learned` or `delete` call only empties the pending
clause and leaves every other field of the checker state unchanged — no
statistics counter is incremented, no clause is created, checked or
removed, no literal is assigned, no garbage collection runs — and no
fatal abort can occur (the learned-clause check and the delete search
are skipped). -/
theorem C10_inconsistent_frame (st : Catch.Checker)
    (h : st.inconsistent = true) :
    Catch.checker_add_original_clause st = { st with clause := [] } ∧
    Catch.checker_add_learned_clause st = .ok { st with clause := [] } ∧
    Catch.checker_delete_clause st = .ok { st with clause := [] } := by
  unfold Catch.checker_add_original_clause Catch.checker_add_learned_clause
    Catch.checker_delete_clause
  rw [h]
  exact ⟨rfl, rfl, rfl⟩

/-- Witness for `C10_inconsistent_frame` at a concrete inconsistent
checker. -/
theorem C10_inconsistent_frame_witness :
    ({ Catch.checker_init with inconsistent := true } : Catch.Checker).inconsistent = true ∧
    (Catch.checker_add_original_clause { Catch.checker_init with inconsistent := true } =
        { { Catch.checker_init with inconsistent := true } with clause := [] } ∧
      Catch.checker_add_learned_clause { Catch.checker_init with inconsistent := true } =
        .ok { { Catch.checker_init with inconsistent := true } with clause := [] } ∧
      Catch.checker_delete_clause { Catch.checker_init with inconsistent := true } =
        .ok { { Catch.checker_init with inconsistent := true } with clause := [] }) :=
  ⟨rfl, C10_inconsistent_frame { Catch.checker_init with inconsistent := true } rfl⟩

/-! ### C4: the `[1]` then `[-1, 2]` scenario -/

/-- **C4, counterexample.**  After `add_original [1]` (which assigns
variable 1 true) the pending clause `[-1, 2]` contains no true literal
(`-1` is false, `2` unassigned), so `checker_trivial_clause` returns
false — the clause is *not* treated as skipped via the trivial-clause
path, contrary to the claim.  (Internal literal `1` is external `-1`;
its value is `-1`.) -/
theorem C4_trivial_path_cex :
    (Catch.checker_trivial_clause
        { Catch.c4_pending with original := Catch.c4_pending.original + 1 }).2 = false ∧
    Catch.c4_pending.values 1 = -1 ∧ Catch.c4_pending.values 2 = 0 := by
  refine ⟨by decide, by decide, by decide⟩

/-- **C4 (amended).**  After `add_original` of the unit clause `[1]`
followed by `add_original` of `[-1, 2]`, the second clause is *not*
trivial (no literal in it is true); `checker_add_clause` partitions the
falsified literal `-1` away and commits the clause as the unit `[2]`,
assigning external 2 true (internal literal 2 has value 1) and counting
a second new unit; and in any case no size-2 clause is stored in the
checker afterwards (the clause arena stays empty, the alive-clause
count stays 0). -/
theorem C4_second_add_is_unit :
    (Catch.checker_trivial_clause
        { Catch.c4_pending with original := Catch.c4_pending.original + 1 }).2 = false ∧
    Catch.c4_state2.values 2 = 1 ∧
    Catch.c4_state2.new_units = 2 ∧
    Catch.c4_state2.trail = [] ∧
    Catch.c4_state2.arena = [] ∧
    Catch.c4_state2.clauses = 0 := by
  refine ⟨by decide, by decide, by decide, by decide, by decide, by decide⟩

/-! ### C2: clause deletion -/

namespace Catch

/-- The per-list search succeeds iff the list holds a clause of the
right size with all literals marked. -/
theorem deleteScan_isSome_iff (marks : Nat → Bool) (size : Nat) (arena : Arena)
    (l : List Nat) :
    (deleteScan marks size arena l).isSome = true ↔
      ∃ id ∈ l, (arenaGet arena id).length = size ∧
        (arenaGet arena id).all marks = true := by
  induction l with
  | nil => simp [deleteScan]
  | cons id rest ih =>
      simp only [deleteScan]
      split_ifs with h1 h2
      · rw [ih]
        constructor
        · rintro ⟨i, hi, hc⟩
          exact ⟨i, List.mem_cons_of_mem _ hi, hc⟩
        · rintro ⟨i, hi, hc⟩
          rcases List.mem_cons.mp hi with rfl | hi
          · exact absurd hc.1 h1
          · exact ⟨i, hi, hc⟩
      · simp only [Option.isSome_some, true_iff]
        exact ⟨id, List.mem_cons_self id rest, not_ne_iff.mp h1, h2⟩
      · rw [ih]
        constructor
        · rintro ⟨i, hi, hc⟩
          exact ⟨i, List.mem_cons_of_mem _ hi, hc⟩
        · rintro ⟨i, hi, hc⟩
          rcases List.mem_cons.mp hi with rfl | hi
          · exact absurd hc.2 h2
          · exact ⟨i, hi, hc⟩

/-- The delete search over the pending literals succeeds iff some watch
list of a pending literal holds a matching clause. -/
theorem findDelete_isSome_iff (marks : Nat → Bool) (size : Nat) (arena : Arena)
    (watches : Nat → List Nat) (lits : List Nat) :
    (findDelete marks size arena watches lits).isSome = true ↔
      ∃ lit ∈ lits, ∃ id ∈ watches lit,
        (arenaGet arena id).length = size ∧
        (arenaGet arena id).all marks = true := by
  induction lits with
  | nil => simp [findDelete]
  | cons lit rest ih =>
      simp only [findDelete]
      cases hscan : deleteScan marks size arena (watches lit) with
      | some id =>
          simp only [Option.isSome_some, true_iff]
          have hs : (deleteScan marks size arena (watches lit)).isSome = true := by
            rw [hscan]; rfl
          obtain ⟨i, hi, hc⟩ := (deleteScan_isSome_iff marks size arena _).mp hs
          exact ⟨lit, List.mem_cons_self lit rest, i, hi, hc⟩
      | none =>
          rw [ih]
          constructor
          · rintro ⟨l, hl, hc⟩
            exact ⟨l, List.mem_cons_of_mem _ hl, hc⟩
          · rintro ⟨l, hl, i, hi, hc⟩
            rcases List.mem_cons.mp hl with rfl | hl
            · exfalso
              have : (deleteScan marks size arena (watches l)).isSome = true :=
                (deleteScan_isSome_iff marks size arena _).mpr ⟨i, hi, hc⟩
              rw [hscan] at this
              exact Bool.false_ne_true this
            · exact ⟨l, hl, i, hi, hc⟩

/-- `checker_internal_delete_clause` succeeds iff the search finds a
match. -/
theorem internal_delete_ok_iff (st : Checker) :
    (∃ s, checker_internal_delete_clause st = .ok s) ↔
      (findDelete st.marks st.clause.length st.arena st.watches st.clause).isSome
        = true := by
  rcases hfd : findDelete st.marks st.clause.length st.arena st.watches st.clause
      with _ | li <;> simp [checker_internal_delete_clause, hfd]

/-- `checker_internal_delete_clause` aborts with the "not found"
message when the search fails. -/
theorem internal_delete_error_of_none (st : Checker)
    (hfd : findDelete st.marks st.clause.length st.arena st.watches st.clause = none) :
    checker_internal_delete_clause st = .error "clause requested to delete not found" := by
  simp [checker_internal_delete_clause, hfd]

/-- A successful internal delete frees exactly one clause. -/
theorem internal_delete_ok_clauses (st s : Checker)
    (hok : checker_internal_delete_clause st = .ok s) :
    s.clauses = st.clauses - 1 := by
  revert hok
  rcases hfd : findDelete st.marks st.clause.length st.arena st.watches st.clause
      with _ | li <;> simp [checker_internal_delete_clause, hfd]
  intro h
  subst h
  rfl

/-- On a consistent checker with a non-trivial normalized pending
clause, `checker_delete_clause` reduces to the internal delete. -/
theorem delete_noninconsistent_eq (st stN : Checker) (h : st.inconsistent = false)
    (hN : checker_trivial_clause { st with deleted := st.deleted + 1 } = (stN, false)) :
    checker_delete_clause st =
      match checker_internal_delete_clause stN with
      | .error e => .error e
      | .ok s => .ok (checker_clear_clause s) := by
  have h2 : (checker_trivial_clause { st with deleted := st.deleted + 1 }).2
      = false := by rw [hN]
  have h1 : (checker_trivial_clause { st with deleted := st.deleted + 1 }).1
      = stN := by rw [hN]
  obtain ⟨sz, inc, mk, vl, wt, tr, cl, nu, wc, og, le, de, co, cs, cls, rm, lk, ar, ni⟩ := st
  replace h : inc = false := h
  subst h
  unfold checker_delete_clause
  rw [if_neg (by simp)]
  simp only [h2, h1, Bool.false_eq_true, if_false]

end Catch

/-- **C2.**  For every delete call on a non-inconsistent checker whose
normalized pending clause `stN` is not trivial: the operation succeeds
iff some watch list of a pending literal holds a clause whose size
equals the normalized pending size and whose literals are all marked
(the marks are exactly the normalized pending set); a successful delete
unlinks and frees that clause (the alive-clause count drops by one; in
the permutation scenario the arena and all watch lists become empty);
any unsuccessful delete aborts with "clause requested to delete not
found".  In particular deleting the permutation `[3, 1, 2]` of the
previously added clause `[1, 2, 3]` succeeds, and deleting the strict
subset `[1, 2]` aborts. -/
theorem C2_delete_search (st stN : Catch.Checker) (h : st.inconsistent = false)
    (hN : Catch.checker_trivial_clause { st with deleted := st.deleted + 1 }
      = (stN, false)) :
    ((∃ st', Catch.checker_delete_clause st = .ok st') ↔
      ∃ lit ∈ stN.clause, ∃ id ∈ stN.watches lit,
        (Catch.arenaGet stN.arena id).length = stN.clause.length ∧
        (Catch.arenaGet stN.arena id).all stN.marks = true) ∧
    ((Catch.checker_delete_clause st).isOk = false →
      Catch.checker_delete_clause st = .error "clause requested to delete not found") ∧
    (∀ st', Catch.checker_delete_clause st = .ok st' →
      st'.clauses = stN.clauses - 1) ∧
    (Catch.checker_delete_clause Catch.c2_perm).toOption.map
        (fun s => (s.clauses, s.arena, s.watches 0, s.watches 2, s.watches 4)) =
      some (0, [], [], [], []) ∧
    Catch.checker_delete_clause Catch.c2_sub =
      .error "clause requested to delete not found" := by
  have hdel := Catch.delete_noninconsistent_eq st stN h hN
  refine ⟨?_, ?_, ?_, by decide, by rfl⟩
  · rw [hdel, ← Catch.findDelete_isSome_iff, ← Catch.internal_delete_ok_iff]
    rcases hid : Catch.checker_internal_delete_clause stN with e | s <;> simp [hid]
  · rw [hdel]
    rcases hid : Catch.checker_internal_delete_clause stN with e | s
    · intro _
      obtain rfl : e = "clause requested to delete not found" := by
        revert hid
        rcases hfd : Catch.findDelete stN.marks stN.clause.length stN.arena
            stN.watches stN.clause with _ | li <;>
          simp [Catch.checker_internal_delete_clause, hfd]
        intro h'
        exact h'.symm
      rfl
    · simp [Except.isOk, Except.toBool]
  · intro st' hok
    rw [hdel] at hok
    revert hok
    rcases hid : Catch.checker_internal_delete_clause stN with e | s
    · simp
    · simp only [Except.ok.injEq]
      intro hok
      subst hok
      have := Catch.internal_delete_ok_clauses stN s hid
      simpa [Catch.checker_clear_clause] using this

/-- Witness for `C2_delete_search` at the permutation scenario. -/
theorem C2_delete_search_witness :
    Catch.c2_perm.inconsistent = false ∧
    Catch.checker_trivial_clause
        { Catch.c2_perm with deleted := Catch.c2_perm.deleted + 1 }
      = ((Catch.checker_trivial_clause
          { Catch.c2_perm with deleted := Catch.c2_perm.deleted + 1 }).1, false) ∧
    (((∃ st', Catch.checker_delete_clause Catch.c2_perm = .ok st') ↔
      ∃ lit ∈ (Catch.checker_trivial_clause
          { Catch.c2_perm with deleted := Catch.c2_perm.deleted + 1 }).1.clause,
        ∃ id ∈ (Catch.checker_trivial_clause
            { Catch.c2_perm with deleted := Catch.c2_perm.deleted + 1 }).1.watches lit,
          (Catch.arenaGet (Catch.checker_trivial_clause
              { Catch.c2_perm with deleted := Catch.c2_perm.deleted + 1 }).1.arena id).length =
            (Catch.checker_trivial_clause
              { Catch.c2_perm with deleted := Catch.c2_perm.deleted + 1 }).1.clause.length ∧
          (Catch.arenaGet (Catch.checker_trivial_clause
              { Catch.c2_perm with deleted := Catch.c2_perm.deleted + 1 }).1.arena id).all
            (Catch.checker_trivial_clause
              { Catch.c2_perm with deleted := Catch.c2_perm.deleted + 1 }).1.marks = true) ∧
    ((Catch.checker_delete_clause Catch.c2_perm).isOk = false →
      Catch.checker_delete_clause Catch.c2_perm =
        .error "clause requested to delete not found") ∧
    (∀ st', Catch.checker_delete_clause Catch.c2_perm = .ok st' →
      st'.clauses = (Catch.checker_trivial_clause
        { Catch.c2_perm with deleted := Catch.c2_perm.deleted + 1 }).1.clauses - 1) ∧
    (Catch.checker_delete_clause Catch.c2_perm).toOption.map
        (fun s => (s.clauses, s.arena, s.watches 0, s.watches 2, s.watches 4)) =
      some (0, [], [], [], []) ∧
    Catch.checker_delete_clause Catch.c2_sub =
      .error "clause requested to delete not found") :=
  ⟨rfl, Prod.ext rfl (by decide),
    C2_delete_search Catch.c2_perm _ rfl (Prod.ext rfl (by decide))⟩

/-! ### C1: the learned-clause DRUP check -/

namespace Catch

/-- The code's implication loop computes exactly the spec-side
success predicate. -/
theorem impliedLoop_fst (lits : List Nat) :
    ∀ st : Checker, (impliedLoop lits st).1 = drupCheckSucceeds lits st := by
  induction lits with
  | nil => intro st; rfl
  | cons lit rest ih =>
      intro st
      simp only [impliedLoop, drupCheckSucceeds]
      by_cases h1 : st.values lit > 0
      · simp [h1]
      · by_cases h2 : st.values lit = 0
        · have h3 : ¬ st.values lit < 0 := by omega
          simp only [if_neg h1, if_pos h2, if_neg h3]
          split_ifs with hp
          · exact ih _
          · rfl
        · have h3 : st.values lit < 0 := by omega
          simp only [if_neg h1, if_neg h2, if_pos h3]
          exact ih st

end Catch

/-- **C1.**  For every `add_learned` call on a non-inconsistent
checker, the operation returns normally iff, processing the pending
clause's literals in order — skipping root-level-false literals,
succeeding as soon as a literal is already root-level true, and
otherwise assigning the literal's negation and unit-propagating — some
literal is found true or some propagation produces a conflict
(`drupCheckSucceeds`, written from the specification); if neither
occurs the checker aborts with "learned clause not implied"; and in the
non-aborting case every assignment made during the check is undone (the
trail is emptied by `checker_backtrack`) before the clause is ingested
by `checker_ingest`, the same path the original add uses. -/
theorem C1_add_learned_drup (st : Catch.Checker) (h : st.inconsistent = false) :
    (Catch.checker_add_learned_clause st =
      if Catch.drupCheckSucceeds st.clause { st with learned := st.learned + 1 } then
        .ok (Catch.checker_ingest (Catch.checker_backtrack
          (Catch.impliedLoop st.clause { st with learned := st.learned + 1 }).2))
      else .error "learned clause not implied") ∧
    (Catch.checker_backtrack
      (Catch.impliedLoop st.clause { st with learned := st.learned + 1 }).2).trail = [] := by
  constructor
  · have hres := Catch.impliedLoop_fst st.clause { st with learned := st.learned + 1 }
    simp only [h] at hres
    simp only [Catch.checker_add_learned_clause, Catch.check_clause_implied, h,
      Bool.false_eq_true, if_false]
    rw [hres]
    split_ifs with hd
    · rfl
    · rfl
  · rfl

/-- Witness for `C1_add_learned_drup` at the fresh checker (whose
pending clause is empty, so the check aborts). -/
theorem C1_add_learned_drup_witness :
    Catch.checker_init.inconsistent = false ∧
    ((Catch.checker_add_learned_clause Catch.checker_init =
      if Catch.drupCheckSucceeds Catch.checker_init.clause
          { Catch.checker_init with learned := Catch.checker_init.learned + 1 } then
        .ok (Catch.checker_ingest (Catch.checker_backtrack
          (Catch.impliedLoop Catch.checker_init.clause
            { Catch.checker_init with learned := Catch.checker_init.learned + 1 }).2))
      else .error "learned clause not implied") ∧
    (Catch.checker_backtrack
      (Catch.impliedLoop Catch.checker_init.clause
        { Catch.checker_init with learned := Catch.checker_init.learned + 1 }).2).trail
      = []) :=
  ⟨rfl, C1_add_learned_drup Catch.checker_init rfl⟩

/-! ### C3: the trail after public operations -/

namespace Catch

/-- The flush fold only changes `watches`, `arena`, `clauses` and
`collected`. -/
theorem foldl_flush_shape (l : List Nat) :
    ∀ st : Checker, ∃ w a c d,
      l.foldl
        (fun st lit =>
          let res := flushScan st.values (st.watches lit) st.arena
          { st with
            watches := fun x => if x = lit then res.1 else st.watches x,
            arena := res.2.1,
            clauses := st.clauses - res.2.2,
            collected := st.collected + res.2.2 })
        st
      = { st with watches := w, arena := a, clauses := c, collected := d } := by
  induction l with
  | nil =>
      intro st
      exact ⟨st.watches, st.arena, st.clauses, st.collected, rfl⟩
  | cons x l ih =>
      intro st
      rw [List.foldl_cons]
      obtain ⟨w, a, c, d, h⟩ := ih _
      rw [h]
      exact ⟨w, a, c, d, rfl⟩

theorem flush_all_shape (st : Checker) :
    ∃ w a c d, checker_flush_all_satisfied_clauses st
      = { st with watches := w, arena := a, clauses := c, collected := d } := by
  unfold checker_flush_all_satisfied_clauses
  exact foldl_flush_shape _ st

/-- Garbage collection only changes the watch/arena structure, the
clause statistics, and the collection schedule: every other field — in
particular the trail, the assignment and the inconsistency flag — is
untouched, `collections` is incremented, `new_units` reset and the next
wait scheduled (saturating). -/
theorem gc_shape (st : Checker) : ∃ w a c d,
    checker_garbage_collection st =
      { st with
        collections := st.collections + 1
        watches := w
        arena := a
        clauses := c
        collected := d
        new_units := 0
        wait_to_collect :=
          (if MAX_SIZE_T / GARBAGE_COLLECTION_INTERVAL < st.collections + 1 then MAX_SIZE_T
           else (st.collections + 1) * GARBAGE_COLLECTION_INTERVAL) } := by
  unfold checker_garbage_collection checker_disconnect_all_second_watches
  obtain ⟨w, a, c, d, h⟩ := flush_all_shape _
  rw [h]
  unfold checker_reconnect_all_second_watches checker_schedule_next_garbage_collection
  exact ⟨_, a, c, d, rfl⟩

/-- After the ingestion core, either the checker is inconsistent or the
trail is empty (given an empty trail on entry): the empty-clause case
sets `inconsistent`; the unit case clears the trail on successful
propagation and sets `inconsistent` on conflict; the stored-clause case
does not touch the trail. -/
theorem add_clause_core_inv (st : Checker) (h : st.trail = []) :
    (checker_add_clause_core st).inconsistent = true ∨
      (checker_add_clause_core st).trail = [] := by
  simp only [checker_add_clause_core]
  split_ifs <;> simp [h]

theorem add_clause_inv (st : Checker) (h : st.trail = []) :
    (checker_add_clause st).inconsistent = true ∨
      (checker_add_clause st).trail = [] := by
  simp only [checker_add_clause]
  split_ifs with hc
  · obtain ⟨w, a, c, d, hgc⟩ := gc_shape (checker_add_clause_core st)
    rw [hgc]
    right
    show (checker_add_clause_core st).trail = []
    rcases add_clause_core_inv st h with hi | ht
    · rw [hc.1] at hi
      exact absurd hi (by simp)
    · exact ht
  · exact add_clause_core_inv st h

theorem trivial_clause_frame (st : Checker) :
    (checker_trivial_clause st).1.trail = st.trail ∧
    (checker_trivial_clause st).1.inconsistent = st.inconsistent := ⟨rfl, rfl⟩

theorem clear_clause_frame (st : Checker) :
    (checker_clear_clause st).trail = st.trail ∧
    (checker_clear_clause st).inconsistent = st.inconsistent := ⟨rfl, rfl⟩

theorem ingest_inv (st : Checker) (h : st.trail = []) :
    (checker_ingest st).inconsistent = true ∨ (checker_ingest st).trail = [] := by
  simp only [checker_ingest]
  split_ifs with ht
  · right
    show (checker_trivial_clause st).1.trail = []
    rw [(trivial_clause_frame st).1, h]
  · have h1 : (checker_trivial_clause st).1.trail = [] := by
      rw [(trivial_clause_frame st).1, h]
    rcases add_clause_inv (checker_trivial_clause st).1 h1 with hi | ht2
    · left
      show (checker_add_clause (checker_trivial_clause st).1).inconsistent = true
      exact hi
    · right
      show (checker_add_clause (checker_trivial_clause st).1).trail = []
      exact ht2

theorem add_literal_frame (st : Checker) (e : Int) :
    (checker_add_literal st e).trail = st.trail ∧
    (checker_add_literal st e).inconsistent = st.inconsistent := ⟨rfl, rfl⟩

theorem addOriginal_inv (st : Checker)
    (h : st.inconsistent = true ∨ st.trail = []) :
    (checker_add_original_clause st).inconsistent = true ∨
      (checker_add_original_clause st).trail = [] := by
  unfold checker_add_original_clause
  cases hI : st.inconsistent with
  | true =>
      rw [if_pos rfl]
      left
      rfl
  | false =>
      rw [if_neg (by simp)]
      rcases h with hi | ht
      · rw [hI] at hi
        exact absurd hi (by simp)
      · exact ingest_inv _ ht

theorem check_implied_ok_trail (st s : Checker)
    (h : check_clause_implied st = .ok s) : s.trail = [] := by
  revert h
  simp only [check_clause_implied]
  split_ifs with hf
  · intro h
    simp only [Except.ok.injEq] at h
    subst h
    rfl
  · intro h
    exact absurd h (by simp)

theorem addLearned_inv (st st' : Checker)
    (hok : checker_add_learned_clause st = .ok st')
    (h : st.inconsistent = true ∨ st.trail = []) :
    st'.inconsistent = true ∨ st'.trail = [] := by
  unfold checker_add_learned_clause at hok
  cases hI : st.inconsistent with
  | true =>
      rw [if_pos hI] at hok
      simp only [Except.ok.injEq] at hok
      subst hok
      exact Or.inl hI
  | false =>
      rw [if_neg (by rw [hI]; simp)] at hok
      rcases hci : check_clause_implied { st with learned := st.learned + 1 }
          with e | s
      · rw [hci] at hok
        exact absurd hok (by simp)
      · rw [hci] at hok
        simp only [Except.ok.injEq] at hok
        subst hok
        exact ingest_inv s (check_implied_ok_trail _ s hci)

theorem internal_delete_frame (st s : Checker)
    (hok : checker_internal_delete_clause st = .ok s) :
    s.trail = st.trail ∧ s.inconsistent = st.inconsistent := by
  revert hok
  rcases hfd : findDelete st.marks st.clause.length st.arena st.watches st.clause
      with _ | li <;> simp [checker_internal_delete_clause, hfd]
  intro h
  subst h
  exact ⟨rfl, rfl⟩

theorem delete_ok_frame (st st' : Checker)
    (hok : checker_delete_clause st = .ok st') :
    st'.trail = st.trail ∧ st'.inconsistent = st.inconsistent := by
  unfold checker_delete_clause at hok
  cases hI : st.inconsistent with
  | true =>
      rw [if_pos hI] at hok
      simp only [Except.ok.injEq] at hok
      subst hok
      constructor
      · rfl
      · exact hI
  | false =>
      rw [if_neg (by rw [hI]; simp)] at hok
      cases h2 : (checker_trivial_clause { st with deleted := st.deleted + 1 }).2 with
      | true =>
          simp only [h2, if_true] at hok
          simp only [Except.ok.injEq] at hok
          subst hok
          constructor
          · rfl
          · exact hI
      | false =>
          simp only [h2, Bool.false_eq_true, if_false] at hok
          rcases hid : checker_internal_delete_clause
              (checker_trivial_clause { st with deleted := st.deleted + 1 }).1
              with e | s
          · rw [hid] at hok
            exact absurd hok (by simp)
          · rw [hid] at hok
            simp only [Except.ok.injEq] at hok
            subst hok
            obtain ⟨ha, hb⟩ := internal_delete_frame _ _ hid
            constructor
            · show s.trail = st.trail
              rw [ha]
              rfl
            · show s.inconsistent = false
              rw [hb]
              exact hI

end Catch

/-- **C3, counterexample.**  The claim says the trail is empty after
*every* public operation, "in particular also when an original add
commits a unit clause whose propagation ends in a conflict".  Exactly
that case leaves the trail non-empty: after `add_original [-1, 2]`,
`add_original [-1, -2]`, the call `add_original [1]` assigns the unit,
propagates 2, hits the conflict in `[-1, -2]`, marks the checker
inconsistent — and returns with the two assigned literals (internal 0
and 3) still on the trail. -/
theorem C3_trail_nonempty_cex :
    Catch.c3_state.trail = [0, 3] ∧
    Catch.c3_state.trail ≠ [] ∧
    Catch.c3_state.inconsistent = true := by
  refine ⟨by decide, by decide, by decide⟩

/-- **C3 (amended).**  After every public checker operation returns,
either the checker has been marked inconsistent or the trail is empty.
(The original claim's "in particular" case — an original add committing
a unit whose propagation conflicts — is precisely the case where the
checker becomes inconsistent with a non-empty trail; every consistent
checker state reachable through the public API has an empty trail.) -/
theorem C3_trail_invariant (st : Catch.Checker) (h : Catch.Reachable st) :
    st.inconsistent = true ∨ st.trail = [] := by
  induction h with
  | init => right; rfl
  | add_literal st e hr hne hnm ih =>
      rcases ih with hi | ht
      · left; rw [(Catch.add_literal_frame st e).2]; exact hi
      · right; rw [(Catch.add_literal_frame st e).1]; exact ht
  | add_original st hr ih => exact Catch.addOriginal_inv st ih
  | add_learned st st' hr hok ih => exact Catch.addLearned_inv st st' hok ih
  | delete st st' hr hok ih =>
      obtain ⟨h1, h2⟩ := Catch.delete_ok_frame st st' hok
      rcases ih with hi | ht
      · left; rw [h2]; exact hi
      · right; rw [h1]; exact ht

/-- Witness for `C3_trail_invariant` at the fresh checker. -/
theorem C3_trail_invariant_witness :
    Catch.Reachable Catch.checker_init ∧
      (Catch.checker_init.inconsistent = true ∨ Catch.checker_init.trail = []) :=
  ⟨Catch.Reachable.init,
    C3_trail_invariant Catch.checker_init Catch.Reachable.init⟩

namespace Catch

theorem addlit_one (st : Checker) : checker_add_literal st 1 =
    { st with size := grow st.size 2, clause := st.clause ++ [0] } := by
  unfold checker_add_literal checker_import LITERAL
  norm_num

theorem addlit_two (st : Checker) : checker_add_literal st 2 =
    { st with size := grow st.size 4, clause := st.clause ++ [2] } := by
  unfold checker_add_literal checker_import LITERAL
  norm_num
  congr 1

theorem addlit_three (st : Checker) : checker_add_literal st 3 =
    { st with size := grow st.size 6, clause := st.clause ++ [4] } := by
  unfold checker_add_literal checker_import LITERAL
  norm_num
  congr 1

/-- Committing the binary clause `[1, 2]` (internal `[0, 2]`, both
unassigned) stores it as a size-2 clause, decrements the wait, and —
as long as the decremented wait has not reached zero — does not run
garbage collection. -/
theorem addOriginal_binary_proj (st : Checker) (w : Nat)
    (h0 : st.inconsistent = false) (hcl : st.clause = [0, 2])
    (h2 : st.values 0 = 0) (h3 : st.values 2 = 0)
    (hm0 : st.marks 0 = false) (hm1 : st.marks 1 = false)
    (hm2 : st.marks 2 = false) (hm3 : st.marks 3 = false)
    (h6 : st.new_units = 1)
    (h7 : st.wait_to_collect = w + 2) :
    (checker_add_original_clause st).inconsistent = false ∧
    (checker_add_original_clause st).clause = [] ∧
    (checker_add_original_clause st).values 0 = 0 ∧
    (checker_add_original_clause st).values 2 = 0 ∧
    (checker_add_original_clause st).marks 0 = false ∧
    (checker_add_original_clause st).marks 1 = false ∧
    (checker_add_original_clause st).marks 2 = false ∧
    (checker_add_original_clause st).marks 3 = false ∧
    (checker_add_original_clause st).new_units = 1 ∧
    (checker_add_original_clause st).wait_to_collect = w + 1 ∧
    (checker_add_original_clause st).collections = st.collections := by
  have hNOT0 : NOT 0 = 1 := rfl
  have hNOT2 : NOT 2 = 3 := rfl
  have key : checker_add_original_clause st =
      checker_clear_clause (checker_add_clause
        ((checker_trivial_clause { st with original := st.original + 1 }).1)) := by
    unfold checker_add_original_clause
    rw [if_neg (by rw [h0]; simp)]
    unfold checker_ingest
    have hflag : (checker_trivial_clause { st with original := st.original + 1 }).2
        = false := by
      simp only [checker_trivial_clause, trivialLoop, hcl, hNOT0, hNOT2, h2, h3,
        hm0, hm1, hm2, hm3]
      norm_num
    simp only [hflag, Bool.false_eq_true, if_false]
  have htr : (checker_trivial_clause { st with original := st.original + 1 }).1 =
      { st with
        original := st.original + 1
        clause := [0, 2]
        marks := fun l => if l = 2 then true else if l = 0 then true else st.marks l } := by
    simp only [checker_trivial_clause, trivialLoop, hcl, hNOT0, hNOT2, h2, h3,
      hm0, hm1, hm2, hm3]
    norm_num
  rw [key, htr]
  have hne : ¬ (w + 2 = 0) := by omega
  have hne1 : ¬ (w + 1 = 0) := by omega
  have hscan : ∀ M : Nat → Bool, addScan st.values
      (({ st with
          original := st.original + 1
          clause := [0, 2]
          marks := M } : Checker)).clause.length [0, 2] 0 0 0 0 = ([0, 2], 2, 0) := by
    intro M
    simp [addScan, h2, h3]
  have hadd : ∀ M : Nat → Bool, checker_add_clause ({ st with
      original := st.original + 1
      clause := [0, 2]
      marks := M } : Checker) =
      (let stX : Checker := { st with
        original := st.original + 1
        clause := [0, 2]
        marks := M }
      let id := stX.next_id
      let st2 : Checker := { stX with
        clauses := stX.clauses + 1
        arena := stX.arena ++ [(id, [0, 2])]
        next_id := id + 1 }
      let w1 := fun l => if l = 0 then id :: st2.watches l else st2.watches l
      { st2 with
        watches := fun l => if l = 2 then id :: w1 l else w1 l
        wait_to_collect := w + 1 }) := by
    intro M
    simp only [checker_add_clause, checker_add_clause_core, hscan M]
    norm_num [h7, h0, h6, hne, hne1]
  rw [hadd]
  refine ⟨h0, rfl, h2, h3, ?_, ?_, ?_, ?_, h6, rfl, rfl⟩
  · simp [checker_clear_clause, hm0]
  · simp [checker_clear_clause, hm1]
  · simp [checker_clear_clause, hm2]
  · simp [checker_clear_clause, hm3]

/-- One `c5_addBin` step keeps `c5_P`, counting the wait down. -/
theorem c5_addBin_step (st : Checker) (w : Nat) (hP : c5_P (w + 2) st) :
    c5_P (w + 1) (c5_addBin st) ∧ (c5_addBin st).collections = st.collections := by
  obtain ⟨p0, p1, p2, p3, p4, p5, p6, p7, p8, p9, p10⟩ := hP
  have hpush : pushLits st [1, 2] =
      { st with size := grow (grow st.size 2) 4, clause := [0, 2] } := by
    unfold pushLits
    simp only [List.foldl_cons, List.foldl_nil, addlit_one, addlit_two, p1]
    rfl
  unfold c5_addBin
  rw [hpush]
  have := addOriginal_binary_proj
    { st with size := grow (grow st.size 2) 4, clause := [0, 2] } w
    p0 rfl p2 p3 p4 p5 p6 p7 p8 p9
  obtain ⟨q0, q1, q2, q3, q4, q5, q6, q7, q8, q9, q10⟩ := this
  exact ⟨⟨q0, q1, q2, q3, q4, q5, q6, q7, q8, q9, by rw [q10]; exact p10⟩,
    by rw [q10]⟩

end Catch

namespace Catch

theorem c5_start_P : c5_P 9999 c5_start := by
  unfold c5_P
  decide

theorem c5_state_succ (k : Nat) : c5_state (k + 1) = c5_addBin (c5_state k) := by
  unfold c5_state
  exact Function.iterate_succ_apply' c5_addBin k c5_start

theorem c5_state_P : ∀ k, k ≤ 9998 → c5_P (9999 - k) (c5_state k) := by
  intro k
  induction k with
  | zero =>
      intro _
      exact c5_start_P
  | succ k ih =>
      intro hk
      have hP := ih (by omega)
      have heq : 9999 - k = (9997 - k) + 2 := by omega
      rw [heq] at hP
      have hstep := (c5_addBin_step _ _ hP).1
      have heq2 : 9997 - k + 1 = 9999 - (k + 1) := by omega
      rw [heq2] at hstep
      rw [c5_state_succ]
      exact hstep

theorem addOriginal_binary_gc (st : Checker)
    (h0 : st.inconsistent = false) (hcl : st.clause = [0, 2])
    (h2 : st.values 0 = 0) (h3 : st.values 2 = 0)
    (hm0 : st.marks 0 = false) (hm1 : st.marks 1 = false)
    (hm2 : st.marks 2 = false) (hm3 : st.marks 3 = false)
    (h6 : st.new_units = 1)
    (h7 : st.wait_to_collect = 1) :
    (checker_add_original_clause st).collections = st.collections + 1 ∧
    (checker_add_original_clause st).new_units = 0 ∧
    (checker_add_original_clause st).wait_to_collect =
      (if MAX_SIZE_T / GARBAGE_COLLECTION_INTERVAL < st.collections + 1 then MAX_SIZE_T
       else (st.collections + 1) * GARBAGE_COLLECTION_INTERVAL) := by
  have hNOT0 : NOT 0 = 1 := rfl
  have hNOT2 : NOT 2 = 3 := rfl
  have key : checker_add_original_clause st =
      checker_clear_clause (checker_add_clause
        ((checker_trivial_clause { st with original := st.original + 1 }).1)) := by
    unfold checker_add_original_clause
    rw [if_neg (by rw [h0]; simp)]
    unfold checker_ingest
    have hflag : (checker_trivial_clause { st with original := st.original + 1 }).2
        = false := by
      simp only [checker_trivial_clause, trivialLoop, hcl, hNOT0, hNOT2, h2, h3,
        hm0, hm1, hm2, hm3]
      norm_num
    simp only [hflag, Bool.false_eq_true, if_false]
  have htr : (checker_trivial_clause { st with original := st.original + 1 }).1 =
      { st with
        original := st.original + 1
        clause := [0, 2]
        marks := fun l => if l = 2 then true else if l = 0 then true else st.marks l } := by
    simp only [checker_trivial_clause, trivialLoop, hcl, hNOT0, hNOT2, h2, h3,
      hm0, hm1, hm2, hm3]
    norm_num
  have hscan : ∀ M : Nat → Bool, addScan st.values
      (({ st with
          original := st.original + 1
          clause := [0, 2]
          marks := M } : Checker)).clause.length [0, 2] 0 0 0 0 = ([0, 2], 2, 0) := by
    intro M
    simp [addScan, h2, h3]
  have hadd : ∀ M : Nat → Bool, checker_add_clause ({ st with
      original := st.original + 1
      clause := [0, 2]
      marks := M } : Checker) =
      checker_garbage_collection
      (let stX : Checker := { st with
        original := st.original + 1
        clause := [0, 2]
        marks := M }
      let id := stX.next_id
      let st2 : Checker := { stX with
        clauses := stX.clauses + 1
        arena := stX.arena ++ [(id, [0, 2])]
        next_id := id + 1 }
      let w1 := fun l => if l = 0 then id :: st2.watches l else st2.watches l
      { st2 with
        watches := fun l => if l = 2 then id :: w1 l else w1 l
        wait_to_collect := 0 }) := by
    intro M
    simp only [checker_add_clause, checker_add_clause_core, hscan M]
    norm_num [h7, h0, h6]
  rw [key, htr, hadd]
  obtain ⟨w', a', c', d', hg⟩ := gc_shape
    (let stX : Checker := { st with
        original := st.original + 1
        clause := [0, 2]
        marks := fun l => if l = 2 then true else if l = 0 then true else st.marks l }
      let id := stX.next_id
      let st2 : Checker := { stX with
        clauses := stX.clauses + 1
        arena := stX.arena ++ [(id, [0, 2])]
        next_id := id + 1 }
      let w1 := fun l => if l = 0 then id :: st2.watches l else st2.watches l
      { st2 with
        watches := fun l => if l = 2 then id :: w1 l else w1 l
        wait_to_collect := 0 })
  rw [hg]
  exact ⟨rfl, rfl, rfl⟩

end Catch

theorem c5_addBin_unfolds (st : Catch.Checker) (h1 : st.clause = []) :
    Catch.c5_addBin st = Catch.checker_add_original_clause
      { st with
        size := Catch.grow (Catch.grow st.size 2) 4
        clause := [0, 2] } := by
  unfold Catch.c5_addBin Catch.pushLits
  simp only [List.foldl_cons, List.foldl_nil, Catch.addlit_one, Catch.addlit_two, h1]
  rfl

theorem c5_final_step (S : Catch.Checker) (hP : Catch.c5_P 1 S) :
    (Catch.c5_addBin S).collections = S.collections + 1 ∧
    (Catch.c5_addBin S).new_units = 0 ∧
    (Catch.c5_addBin S).wait_to_collect = 10000 := by
  obtain ⟨p0, p1, p2, p3, p4, p5, p6, p7, p8, p9, p10⟩ := hP
  have hfin := c5_addBin_unfolds S p1
  have hgc := Catch.addOriginal_binary_gc
    { S with
      size := Catch.grow (Catch.grow S.size 2) 4
      clause := [0, 2] }
    p0 rfl p2 p3 p4 p5 p6 p7 p8 p9
  rw [← hfin] at hgc
  obtain ⟨g1, g2, g3⟩ := hgc
  refine ⟨g1, g2, ?_⟩
  rw [g3]
  show (if Catch.MAX_SIZE_T / Catch.GARBAGE_COLLECTION_INTERVAL <
      S.collections + 1 then Catch.MAX_SIZE_T
    else (S.collections + 1) * Catch.GARBAGE_COLLECTION_INTERVAL) = 10000
  rw [p10]
  norm_num [Catch.MAX_SIZE_T, Catch.GARBAGE_COLLECTION_INTERVAL]

/-- **C5, counterexample.**  The claim says garbage collection runs
only after an original-add commits a *unit*.  Start with
`add_original [3]` (one new unit, wait counter 9999) and follow with
9999 `add_original [1, 2]` calls.  Before the last call the wait is 1,
no collection has run, and both literals of `[1, 2]` are unassigned —
so the last add stores a size-2 clause and commits no unit — yet that
very call counts the wait to 0 and runs the garbage collection
(`collections` becomes 1), then schedules the next wait
`1 × 10000 = 10000` and resets `new_units`. -/
theorem C5_gc_cex :
    (Catch.c5_state 9998).wait_to_collect = 1 ∧
    (Catch.c5_state 9998).collections = 0 ∧
    (Catch.c5_state 9998).values 0 = 0 ∧
    (Catch.c5_state 9998).values 2 = 0 ∧
    (Catch.c5_state 9999).collections = 1 ∧
    (Catch.c5_state 9999).new_units = 0 ∧
    (Catch.c5_state 9999).wait_to_collect = 10000 := by
  have hP := Catch.c5_state_P 9998 (by norm_num)
  rw [show 9999 - 9998 = 1 from by norm_num] at hP
  have h99 : Catch.c5_state 9999 = Catch.c5_addBin (Catch.c5_state 9998) := by
    rw [show (9999 : Nat) = 9998 + 1 from rfl]
    exact Catch.c5_state_succ 9998
  have hfinal := c5_final_step (Catch.c5_state 9998) hP
  rw [← h99] at hfinal
  obtain ⟨p0, p1, p2, p3, p4, p5, p6, p7, p8, p9, p10⟩ := hP
  refine ⟨p9, p10, p2, p3, ?_, hfinal.2.1, hfinal.2.2⟩
  rw [hfinal.1, p10]

/-- **C5 (amended).**  Garbage collection of root-level satisfied
clauses runs at the end of `checker_add_clause` — i.e. whenever an
original or learned add ingests a non-trivial clause — exactly when the
post-ingestion checker is consistent, `new_units > 0` and the scheduled
wait counter has elapsed; after each collection the next wait is set to
`collections × 10000` (saturating at the maximum `size_t` value) and
`new_units` is reset to 0. -/
theorem C5_gc_trigger (st : Catch.Checker) :
    (Catch.checker_add_clause st =
      if (Catch.checker_add_clause_core st).inconsistent = false ∧
         (Catch.checker_add_clause_core st).new_units ≠ 0 ∧
         (Catch.checker_add_clause_core st).wait_to_collect = 0
      then Catch.checker_garbage_collection (Catch.checker_add_clause_core st)
      else Catch.checker_add_clause_core st) ∧
    (Catch.checker_garbage_collection st).collections = st.collections + 1 ∧
    (Catch.checker_garbage_collection st).new_units = 0 ∧
    (Catch.checker_garbage_collection st).wait_to_collect =
      (if Catch.MAX_SIZE_T / Catch.GARBAGE_COLLECTION_INTERVAL < st.collections + 1
       then Catch.MAX_SIZE_T
       else (st.collections + 1) * Catch.GARBAGE_COLLECTION_INTERVAL) := by
  obtain ⟨w, a, c, d, hg⟩ := Catch.gc_shape st
  refine ⟨rfl, ?_, ?_, ?_⟩ <;> rw [hg]

namespace Generate

theorem init_iff (implied : List (Nat × Nat)) (i j : Nat) :
    initTransitivelyImplied implied i j = true ↔ (i, j) ∈ implied := by
  unfold initTransitivelyImplied
  suffices h : ∀ T : Nat → Nat → Bool,
      (implied.foldl (fun T p => fun i j => if i = p.1 ∧ j = p.2 then true else T i j) T)
        i j = true ↔ T i j = true ∨ (i, j) ∈ implied by
    rw [h]
    simp
  induction implied with
  | nil => intro T; simp
  | cons p rest ih =>
      intro T
      rw [List.foldl_cons, ih]
      by_cases hp : i = p.1 ∧ j = p.2
      · simp only [hp, if_pos, and_self, if_true]
        constructor
        · intro _
          right
          rw [List.mem_cons]
          left
          simp [Prod.ext_iff, hp.1, hp.2]
        · intro _
          left
          simp [hp]
      · simp only [if_neg hp]
        rw [List.mem_cons]
        constructor
        · rintro (h | h)
          · exact Or.inl h
          · exact Or.inr (Or.inr h)
        · rintro (h | h | h)
          · exact Or.inl h
          · exfalso
            apply hp
            rw [Prod.ext_iff] at h
            exact h
          · exact Or.inr h

theorem tripleList_mem (n : Nat) (t : Nat × Nat × Nat) (h : t ∈ tripleList n) :
    t.1 < n ∧ t.2.1 < n ∧ t.2.2 < n := by
  unfold tripleList at h
  simp only [List.mem_flatMap, List.mem_map, List.mem_range] at h
  obtain ⟨i, hi, j, hj, k, hk, rfl⟩ := h
  exact ⟨hi, hj, hk⟩

theorem tripleList_complete (n i j k : Nat) (hi : i < n) (hj : j < n) (hk : k < n) :
    (i, j, k) ∈ tripleList n := by
  unfold tripleList
  simp only [List.mem_flatMap, List.mem_map, List.mem_range]
  exact ⟨i, hi, j, hj, k, hk, rfl⟩

theorem hullStep_fst_mono (A : (Nat → Nat → Bool) × Bool) (t : Nat × Nat × Nat)
    (i j : Nat) (h : A.1 i j = true) : (hullStep A t).1 i j = true := by
  unfold hullStep
  split
  · simp only
    split
    · rfl
    · exact h
  · exact h

theorem hullStep_snd_mono (A : (Nat → Nat → Bool) × Bool) (t : Nat × Nat × Nat)
    (h : A.2 = true) : (hullStep A t).2 = true := by
  unfold hullStep
  split
  · rfl
  · exact h

theorem foldl_hullStep_fst_mono (l : List (Nat × Nat × Nat))
    (A : (Nat → Nat → Bool) × Bool) (i j : Nat) (h : A.1 i j = true) :
    (l.foldl hullStep A).1 i j = true := by
  induction l generalizing A with
  | nil => exact h
  | cons t l ih =>
      rw [List.foldl_cons]
      exact ih _ (hullStep_fst_mono A t i j h)

theorem foldl_hullStep_snd_mono (l : List (Nat × Nat × Nat))
    (A : (Nat → Nat → Bool) × Bool) (h : A.2 = true) :
    (l.foldl hullStep A).2 = true := by
  induction l generalizing A with
  | nil => exact h
  | cons t l ih =>
      rw [List.foldl_cons]
      exact ih _ (hullStep_snd_mono A t h)

theorem hullStep_sound (R : Nat → Nat → Prop) (A : (Nat → Nat → Bool) × Bool)
    (t : Nat × Nat × Nat) (h : Sound R A.1) : Sound R (hullStep A t).1 := by
  unfold hullStep
  split
  · next hc =>
      intro i j hij
      simp only [Bool.and_eq_true, Bool.not_eq_true'] at hc
      simp only at hij
      split at hij
      · next he =>
          obtain ⟨h1, h2⟩ := he
          subst h1
          subst h2
          exact Relation.TransGen.trans (h _ _ hc.1.1) (h _ _ hc.1.2)
      · exact h _ _ hij
  · exact h

theorem foldl_hullStep_sound (R : Nat → Nat → Prop) (l : List (Nat × Nat × Nat))
    (A : (Nat → Nat → Bool) × Bool) (h : Sound R A.1) :
    Sound R (l.foldl hullStep A).1 := by
  induction l generalizing A with
  | nil => exact h
  | cons t l ih =>
      rw [List.foldl_cons]
      exact ih _ (hullStep_sound R A t h)

theorem foldl_hullStep_nochange (l : List (Nat × Nat × Nat)) (T : Nat → Nat → Bool)
    (h : (l.foldl hullStep (T, false)).2 = false) :
    (l.foldl hullStep (T, false)).1 = T ∧
    ∀ t ∈ l, ¬(T t.1 t.2.1 = true ∧ T t.2.1 t.2.2 = true ∧ T t.1 t.2.2 = false) := by
  induction l with
  | nil => exact ⟨rfl, by simp⟩
  | cons t l ih =>
      rw [List.foldl_cons] at h ⊢
      by_cases hc : T t.1 t.2.1 = true ∧ T t.2.1 t.2.2 = true ∧ T t.1 t.2.2 = false
      · exfalso
        have hsnd : (hullStep (T, false) t).2 = true := by
          unfold hullStep
          rw [if_pos]
          simp [hc.1, hc.2.1, hc.2.2]
        rw [foldl_hullStep_snd_mono l _ hsnd] at h
        exact Bool.noConfusion h
      · have hstep : hullStep (T, false) t = (T, false) := by
          unfold hullStep
          rw [if_neg]
          intro hb
          apply hc
          simp only [Bool.and_eq_true, Bool.not_eq_true'] at hb
          exact ⟨hb.1.1, hb.1.2, hb.2⟩
        rw [hstep] at h ⊢
        obtain ⟨h1, h2⟩ := ih h
        refine ⟨h1, ?_⟩
        intro u hu
        rcases List.mem_cons.mp hu with hu | hu
        · subst hu
          exact hc
        · exact h2 u hu

theorem foldl_hullStep_change (l : List (Nat × Nat × Nat))
    (A : (Nat → Nat → Bool) × Bool) (hA : A.2 = false)
    (h : (l.foldl hullStep A).2 = true) :
    ∃ t ∈ l, A.1 t.1 t.2.2 = false ∧ (l.foldl hullStep A).1 t.1 t.2.2 = true := by
  induction l generalizing A with
  | nil =>
      rw [List.foldl_nil, hA] at h
      exact Bool.noConfusion h
  | cons t l ih =>
      rw [List.foldl_cons] at h ⊢
      by_cases hc : A.1 t.1 t.2.1 = true ∧ A.1 t.2.1 t.2.2 = true ∧ A.1 t.1 t.2.2 = false
      · refine ⟨t, List.mem_cons_self t l, hc.2.2, ?_⟩
        apply foldl_hullStep_fst_mono
        unfold hullStep
        rw [if_pos (by simp [hc.1, hc.2.1, hc.2.2])]
        simp
      · have hstep : hullStep A t = A := by
          unfold hullStep
          rw [if_neg]
          intro hb
          apply hc
          simp only [Bool.and_eq_true, Bool.not_eq_true'] at hb
          exact ⟨hb.1.1, hb.1.2, hb.2⟩
        rw [hstep] at h ⊢
        obtain ⟨u, hu, h1, h2⟩ := ih A hA h
        exact ⟨u, List.mem_cons_of_mem t hu, h1, h2⟩

theorem entryCount_le (n : Nat) (T : Nat → Nat → Bool) : entryCount n T ≤ n * n := by
  unfold entryCount
  calc ((Finset.range n ×ˢ Finset.range n).filter fun p => T p.1 p.2 = true).card
      ≤ (Finset.range n ×ˢ Finset.range n).card := Finset.card_filter_le _ _
    _ = n * n := by rw [Finset.card_product, Finset.card_range]

theorem entryCount_lt (n : Nat) (T U : Nat → Nat → Bool)
    (hmono : ∀ i j, T i j = true → U i j = true)
    (i j : Nat) (hi : i < n) (hj : j < n) (hT : T i j = false) (hU : U i j = true) :
    entryCount n T < entryCount n U := by
  unfold entryCount
  apply Finset.card_lt_card
  rw [Finset.ssubset_iff_of_subset]
  · refine ⟨(i, j), ?_, ?_⟩
    · rw [Finset.mem_filter, Finset.mem_product, Finset.mem_range, Finset.mem_range]
      exact ⟨⟨hi, hj⟩, hU⟩
    · rw [Finset.mem_filter]
      intro hmem
      rw [hT] at hmem
      exact Bool.false_ne_true hmem.2
  · intro p hp
    rw [Finset.mem_filter] at hp ⊢
    exact ⟨hp.1, hmono _ _ hp.2⟩

theorem hullLoop_mono (n fuel : Nat) (T : Nat → Nat → Bool) (i j : Nat)
    (h : T i j = true) : hullLoop n fuel T i j = true := by
  induction fuel generalizing T with
  | zero => exact h
  | succ f ih =>
      simp only [hullLoop]
      split
      · exact ih _ (foldl_hullStep_fst_mono _ _ _ _ h)
      · exact foldl_hullStep_fst_mono _ _ _ _ h

theorem hullLoop_sound (R : Nat → Nat → Prop) (n fuel : Nat) (T : Nat → Nat → Bool)
    (h : Sound R T) : Sound R (hullLoop n fuel T) := by
  induction fuel generalizing T with
  | zero => exact h
  | succ f ih =>
      simp only [hullLoop]
      split
      · exact ih _ (foldl_hullStep_sound R _ _ h)
      · exact foldl_hullStep_sound R _ _ h

theorem hullLoop_fix (n : Nat) : ∀ fuel T, n * n + 1 ≤ entryCount n T + fuel →
    hullPass n (hullLoop n fuel T) = (hullLoop n fuel T, false) := by
  intro fuel
  induction fuel with
  | zero =>
      intro T h
      exfalso
      have := entryCount_le n T
      omega
  | succ f ih =>
      intro T h
      simp only [hullLoop]
      by_cases hch : (hullPass n T).2 = true
      · rw [if_pos hch]
        apply ih
        obtain ⟨t, ht, h0, h1⟩ := foldl_hullStep_change (tripleList n) (T, false) rfl hch
        obtain ⟨hi, _, hk⟩ := tripleList_mem n t ht
        have hlt : entryCount n T < entryCount n (hullPass n T).1 :=
          entryCount_lt n T _ (fun i j hij => foldl_hullStep_fst_mono _ _ _ _ hij)
            t.1 t.2.2 hi hk h0 h1
        omega
      · rw [if_neg hch]
        have hch2 : (hullPass n T).2 = false := by
          revert hch
          cases (hullPass n T).2 <;> simp
        obtain ⟨h1, _⟩ := foldl_hullStep_nochange (tripleList n) T hch2
        have h1a : (hullPass n T).1 = T := h1
        rw [h1a]
        exact Prod.ext h1a hch2

theorem transGen_bounds (n : Nat) (implied : List (Nat × Nat))
    (hsup : ∀ p ∈ implied, p.1 < n ∧ p.2 < n) (a b : Nat)
    (h : Relation.TransGen (impliedRel implied) a b) : a < n ∧ b < n := by
  induction h with
  | single hr => exact hsup _ hr
  | tail htg hr ih => exact ⟨ih.1, (hsup _ hr).2⟩

theorem hull_closed (n : Nat) (implied : List (Nat × Nat)) (i j k : Nat)
    (hi : i < n) (hj : j < n) (hk : k < n)
    (h1 : transitive_hull n implied i j = true)
    (h2 : transitive_hull n implied j k = true) :
    transitive_hull n implied i k = true := by
  unfold transitive_hull at h1 h2 ⊢
  have hfix := hullLoop_fix n (n * n + 1) (initTransitivelyImplied implied) (by omega)
  have hsnd : ((tripleList n).foldl hullStep
      (hullLoop n (n * n + 1) (initTransitivelyImplied implied), false)).2 = false :=
    congrArg Prod.snd hfix
  obtain ⟨_, hae⟩ := foldl_hullStep_nochange (tripleList n) _ hsnd
  have hcl := hae (i, j, k) (tripleList_complete n i j k hi hj hk)
  by_cases hik : hullLoop n (n * n + 1) (initTransitivelyImplied implied) i k = true
  · exact hik
  · exfalso
    apply hcl
    refine ⟨h1, h2, ?_⟩
    revert hik
    cases hullLoop n (n * n + 1) (initTransitivelyImplied implied) i k <;> simp

theorem transitive_hull_iff (n : Nat) (implied : List (Nat × Nat))
    (hsup : ∀ p ∈ implied, p.1 < n ∧ p.2 < n) (i j : Nat) :
    transitive_hull n implied i j = true ↔
      Relation.TransGen (impliedRel implied) i j := by
  constructor
  · intro h
    apply hullLoop_sound (impliedRel implied) n (n * n + 1)
      (initTransitivelyImplied implied) _ i j h
    intro a b hab
    exact Relation.TransGen.single ((init_iff implied a b).mp hab)
  · intro htg
    induction htg with
    | single hr =>
        exact hullLoop_mono _ _ _ _ _ ((init_iff implied _ _).mpr hr)
    | @tail b c htg hr ih =>
        obtain ⟨hi, hb⟩ := transGen_bounds n implied hsup _ _ htg
        have hc : c < n := (hsup _ hr).2
        have h2 : transitive_hull n implied b c = true :=
          hullLoop_mono _ _ _ _ _ ((init_iff implied _ _).mpr hr)
        exact hull_closed n implied i b c hi hb hc ih h2

theorem push_canonical (names : Nat → String) (i j : Nat) :
    names (push_invalid_pair names i j).1 ≤ names (push_invalid_pair names i j).2 := by
  unfold push_invalid_pair
  split
  · next h => exact le_of_lt h
  · next h => exact le_of_not_lt h

theorem cmp_invalid_le_trans (names : Nat → String) : ∀ a b c,
    cmp_invalid_le names a b = true → cmp_invalid_le names b c = true →
    cmp_invalid_le names a c = true := by
  intro a b c hab hbc
  simp only [cmp_invalid_le, decide_eq_true_eq] at hab hbc ⊢
  rcases hab with h1 | ⟨h1, h2⟩ <;> rcases hbc with h3 | ⟨h3, h4⟩
  · exact Or.inl (lt_trans h1 h3)
  · exact Or.inl (lt_of_lt_of_le h1 (le_of_eq h3))
  · exact Or.inl (lt_of_le_of_lt (le_of_eq h1) h3)
  · exact Or.inr ⟨h1.trans h3, h2.trans h4⟩

theorem cmp_invalid_le_total (names : Nat → String) : ∀ a b,
    (cmp_invalid_le names a b || cmp_invalid_le names b a) = true := by
  intro a b
  simp only [cmp_invalid_le, Bool.or_eq_true, decide_eq_true_eq]
  rcases lt_trichotomy (names a.1) (names b.1) with h | h | h
  · exact Or.inl (Or.inl h)
  · rcases le_total (names a.2) (names b.2) with h2 | h2
    · exact Or.inl (Or.inr ⟨h, h2⟩)
    · exact Or.inr (Or.inr ⟨h.symm, h2⟩)
  · exact Or.inr (Or.inl h)

end Generate

/-- C8: the list of invalid option pairs emitted by the feature-metadata
generator is exactly the union of the clashing pairs and the transitive
closure of the implied pairs: the fixed-point iteration over the n x n
reachability matrix computes precisely the transitive closure of the
implied relation; a pair is in the emitted list iff it is the
canonicalized form of a transitive consequence or of a clashing pair;
every emitted pair has its two option names in canonical (sorted)
order; and the emitted list is sorted lexicographically by name pair
(the hypothesis states that the implied pairs index features below n,
as established by the generator's parser). -/
theorem C8_invalid_pairs (n : Nat) (names : Nat → String)
    (implied clashing : List (Nat × Nat))
    (hsup : ∀ p ∈ implied, p.1 < n ∧ p.2 < n) :
    (∀ i j, Generate.transitive_hull n implied i j = true ↔
      Relation.TransGen (Generate.impliedRel implied) i j) ∧
    (∀ p, p ∈ Generate.sort_invalid_feature_pairs n names implied clashing ↔
      ((∃ i j, Relation.TransGen (Generate.impliedRel implied) i j ∧
          p = Generate.push_invalid_pair names i j) ∨
       ∃ q ∈ clashing, p = Generate.push_invalid_pair names q.1 q.2)) ∧
    (∀ p ∈ Generate.sort_invalid_feature_pairs n names implied clashing,
      names p.1 ≤ names p.2) ∧
    List.Pairwise (fun p q => Generate.cmp_invalid_le names p q = true)
      (Generate.sort_invalid_feature_pairs n names implied clashing) := by
  refine ⟨Generate.transitive_hull_iff n implied hsup, ?_, ?_, ?_⟩
  · intro p
    unfold Generate.sort_invalid_feature_pairs
    rw [List.Perm.mem_iff (List.mergeSort_perm _ _)]
    simp only [List.mem_append, List.mem_flatMap, List.mem_map, List.mem_filter,
      List.mem_range]
    constructor
    · rintro (⟨i, hi, j, ⟨hj, hh⟩, rfl⟩ | ⟨q, hq, rfl⟩)
      · exact Or.inl ⟨i, j, (Generate.transitive_hull_iff n implied hsup i j).mp hh, rfl⟩
      · exact Or.inr ⟨q, hq, rfl⟩
    · rintro (⟨i, j, htg, rfl⟩ | ⟨q, hq, rfl⟩)
      · obtain ⟨hi, hj⟩ := Generate.transGen_bounds n implied hsup i j htg
        exact Or.inl ⟨i, hi, j,
          ⟨hj, (Generate.transitive_hull_iff n implied hsup i j).mpr htg⟩, rfl⟩
      · exact Or.inr ⟨q, hq, rfl⟩
  · intro p hp
    unfold Generate.sort_invalid_feature_pairs at hp
    rw [List.Perm.mem_iff (List.mergeSort_perm _ _)] at hp
    rcases List.mem_append.mp hp with hp | hp
    · simp only [List.mem_flatMap, List.mem_map, List.mem_filter,
        List.mem_range] at hp
      obtain ⟨i, hi, j, hj, rfl⟩ := hp
      exact Generate.push_canonical names i j
    · obtain ⟨q, hq, rfl⟩ := List.mem_map.mp hp
      exact Generate.push_canonical names q.1 q.2
  · unfold Generate.sort_invalid_feature_pairs
    exact List.sorted_mergeSort (Generate.cmp_invalid_le_trans names)
      (Generate.cmp_invalid_le_total names) _

theorem C8_invalid_pairs_witness :
    (∀ p ∈ [((0 : Nat), (1 : Nat)), (1, 2)], p.1 < 3 ∧ p.2 < 3) ∧
    ((∀ i j, Generate.transitive_hull 3 [(0, 1), (1, 2)] i j = true ↔
        Relation.TransGen (Generate.impliedRel [(0, 1), (1, 2)]) i j) ∧
     (∀ p, p ∈ Generate.sort_invalid_feature_pairs 3 Generate.c8names
          [(0, 1), (1, 2)] [(2, 0)] ↔
        ((∃ i j, Relation.TransGen (Generate.impliedRel [(0, 1), (1, 2)]) i j ∧
            p = Generate.push_invalid_pair Generate.c8names i j) ∨
         ∃ q ∈ [((2 : Nat), (0 : Nat))],
            p = Generate.push_invalid_pair Generate.c8names q.1 q.2)) ∧
     (∀ p ∈ Generate.sort_invalid_feature_pairs 3 Generate.c8names
          [(0, 1), (1, 2)] [(2, 0)],
        Generate.c8names p.1 ≤ Generate.c8names p.2) ∧
     List.Pairwise (fun p q => Generate.cmp_invalid_le Generate.c8names p q = true)
       (Generate.sort_invalid_feature_pairs 3 Generate.c8names
          [(0, 1), (1, 2)] [(2, 0)])) :=
  ⟨by decide,
   C8_invalid_pairs 3 Generate.c8names [(0, 1), (1, 2)] [(2, 0)] (by decide)⟩

namespace Gencombi

theorem mem_pairsClauses (k n : Nat) (valid : Nat → Nat → Bool)
    (i p q : Nat) (hi : i < k) (hpq : p < q) (hq : q < n)
    (c : List Int)
    (hc : c ∈ if valid p q then
        [[-(pairVar k n valid i p q : Int), (optionVar n i p : Int)],
         [-(pairVar k n valid i p q : Int), (optionVar n i q : Int)],
         [-(optionVar n i p : Int), -(optionVar n i q : Int),
          (pairVar k n valid i p q : Int)]]
      else
        [[-(optionVar n i p : Int), -(optionVar n i q : Int)]]) :
    c ∈ pairsClauses k n valid := by
  unfold pairsClauses
  simp only [List.mem_flatMap, List.mem_filter, List.mem_range]
  exact ⟨i, hi, p, lt_trans hpq hq, q, ⟨hq, by simp [hpq]⟩, hc⟩

end Gencombi

/-- C9: for every k >= 2, every configuration index i < k and every
option pair p < q < noptions, the CNF emitted by the configuration-pair
generator contains the binary clash clause not-option[i][p] or
not-option[i][q] when the pair is invalid; and when the pair is valid
it contains the three clauses defining pair[i][p][q] as the conjunction
option[i][p] and option[i][q], the coverage clause over all
configurations of pair[i][p][q], and -- unless weak mode is enabled, in
which case the whole absence group is omitted -- the absence clause over
all configurations of not-pair[i][p][q]. -/
theorem C9_encode_clauses (k n : Nat) (valid : Nat → Nat → Bool)
    (needed : Nat → Bool) (needs : Nat → Nat → Bool) (unsorted weak : Bool)
    (hk : 2 ≤ k) (i p q : Nat) (hi : i < k) (hpq : p < q) (hq : q < n) :
    (valid p q = false →
      [-(Gencombi.optionVar n i p : Int), -(Gencombi.optionVar n i q : Int)] ∈
        Gencombi.encode k n valid needed needs unsorted weak) ∧
    (valid p q = true →
      [-(Gencombi.pairVar k n valid i p q : Int), (Gencombi.optionVar n i p : Int)] ∈
        Gencombi.encode k n valid needed needs unsorted weak ∧
      [-(Gencombi.pairVar k n valid i p q : Int), (Gencombi.optionVar n i q : Int)] ∈
        Gencombi.encode k n valid needed needs unsorted weak ∧
      [-(Gencombi.optionVar n i p : Int), -(Gencombi.optionVar n i q : Int),
        (Gencombi.pairVar k n valid i p q : Int)] ∈
        Gencombi.encode k n valid needed needs unsorted weak ∧
      ((List.range k).map fun i2 => (Gencombi.pairVar k n valid i2 p q : Int)) ∈
        Gencombi.encode k n valid needed needs unsorted weak ∧
      (weak = false →
        ((List.range k).map fun i2 => -(Gencombi.pairVar k n valid i2 p q : Int)) ∈
          Gencombi.encode k n valid needed needs unsorted weak) ∧
      (weak = true → Gencombi.absenceClauses k n valid weak = [])) := by
  have hmempq : (p, q) ∈ Gencombi.validPairs n valid → valid p q = true → True := fun _ _ => trivial
  constructor
  · intro hv
    unfold Gencombi.encode
    refine List.mem_append.mpr (Or.inl (List.mem_append.mpr (Or.inl
      (List.mem_append.mpr (Or.inl (List.mem_append.mpr (Or.inr ?_)))))))
    apply Gencombi.mem_pairsClauses k n valid i p q hi hpq hq
    rw [hv]
    simp
  · intro hv
    have hvp : (p, q) ∈ Gencombi.validPairs n valid := by
      unfold Gencombi.validPairs
      simp only [List.mem_flatMap, List.mem_map, List.mem_filter, List.mem_range]
      exact ⟨p, lt_trans hpq hq, q, ⟨hq, by simp [hpq, hv]⟩, rfl⟩
    refine ⟨?_, ?_, ?_, ?_, ?_, ?_⟩
    · unfold Gencombi.encode
      refine List.mem_append.mpr (Or.inl (List.mem_append.mpr (Or.inl
        (List.mem_append.mpr (Or.inl (List.mem_append.mpr (Or.inr ?_)))))))
      apply Gencombi.mem_pairsClauses k n valid i p q hi hpq hq
      rw [hv]
      simp
    · unfold Gencombi.encode
      refine List.mem_append.mpr (Or.inl (List.mem_append.mpr (Or.inl
        (List.mem_append.mpr (Or.inl (List.mem_append.mpr (Or.inr ?_)))))))
      apply Gencombi.mem_pairsClauses k n valid i p q hi hpq hq
      rw [hv]
      simp
    · unfold Gencombi.encode
      refine List.mem_append.mpr (Or.inl (List.mem_append.mpr (Or.inl
        (List.mem_append.mpr (Or.inl (List.mem_append.mpr (Or.inr ?_)))))))
      apply Gencombi.mem_pairsClauses k n valid i p q hi hpq hq
      rw [hv]
      simp
    · unfold Gencombi.encode
      refine List.mem_append.mpr (Or.inl (List.mem_append.mpr (Or.inr ?_)))
      unfold Gencombi.coverageClauses
      exact List.mem_map.mpr ⟨(p, q), hvp, rfl⟩
    · intro hw
      unfold Gencombi.encode
      refine List.mem_append.mpr (Or.inr ?_)
      unfold Gencombi.absenceClauses
      rw [hw]
      simp only [Bool.false_eq_true, if_false]
      exact List.mem_map.mpr ⟨(p, q), hvp, rfl⟩
    · intro hw
      unfold Gencombi.absenceClauses
      rw [hw]
      simp

theorem C9_encode_clauses_witness :
    2 ≤ 2 ∧ 0 < 2 ∧ 1 < 2 ∧ 2 < 3 ∧
    ((Gencombi.c9valid 1 2 = false →
      [-(Gencombi.optionVar 3 0 1 : Int), -(Gencombi.optionVar 3 0 2 : Int)] ∈
        Gencombi.encode 2 3 Gencombi.c9valid (fun _ => false) (fun _ _ => false)
          false false) ∧
    (Gencombi.c9valid 1 2 = true →
      [-(Gencombi.pairVar 2 3 Gencombi.c9valid 0 1 2 : Int),
        (Gencombi.optionVar 3 0 1 : Int)] ∈
        Gencombi.encode 2 3 Gencombi.c9valid (fun _ => false) (fun _ _ => false)
          false false ∧
      [-(Gencombi.pairVar 2 3 Gencombi.c9valid 0 1 2 : Int),
        (Gencombi.optionVar 3 0 2 : Int)] ∈
        Gencombi.encode 2 3 Gencombi.c9valid (fun _ => false) (fun _ _ => false)
          false false ∧
      [-(Gencombi.optionVar 3 0 1 : Int), -(Gencombi.optionVar 3 0 2 : Int),
        (Gencombi.pairVar 2 3 Gencombi.c9valid 0 1 2 : Int)] ∈
        Gencombi.encode 2 3 Gencombi.c9valid (fun _ => false) (fun _ _ => false)
          false false ∧
      ((List.range 2).map fun i2 =>
          (Gencombi.pairVar 2 3 Gencombi.c9valid i2 1 2 : Int)) ∈
        Gencombi.encode 2 3 Gencombi.c9valid (fun _ => false) (fun _ _ => false)
          false false ∧
      (false = false →
        ((List.range 2).map fun i2 =>
            -(Gencombi.pairVar 2 3 Gencombi.c9valid i2 1 2 : Int)) ∈
          Gencombi.encode 2 3 Gencombi.c9valid (fun _ => false) (fun _ _ => false)
            false false) ∧
      (false = true → Gencombi.absenceClauses 2 3 Gencombi.c9valid false = []))) :=
  ⟨by decide, by decide, by decide, by decide,
   C9_encode_clauses 2 3 Gencombi.c9valid (fun _ => false) (fun _ _ => false)
     false false (by decide) 0 1 2 (by decide) (by decide) (by decide)⟩
